import Mathlib

/-!
Layered configuration resolver (`koanf.go`).

Shallow embedding of `RegisterFlags`, its returned parse closure, `keys`,
`filter` and `Marshal`.

Modelling conventions.

* A Go `string` is a `List Char`.
* What the libraries fix outside this repository is a parameter `Lib`: the
  Unicode case tables behind `strings.ToLower`, `strings.ToUpper` and
  `strings.EqualFold`, the text `%v` prints for a non-nil pointer and for a
  nested map, and the order in which a Go map is iterated.
* A koanf instance is its nested configuration map, represented by its
  leaves: a list of `(path, value)` pairs.  `maps.Merge`, `maps.Unflatten`
  and `maps.Flatten` act on it as in the library: a merged leaf replaces
  what the target holds at, above and below its path, and two leaves whose
  paths join to the same flat key are resolved by iteration order.
* The closure returns nil, returns an error, or panics.
* Flag usage texts, and with them the function `description`, are not
  represented.
* The process environment, the command line, the file system and the
  destination's `Validate` method are explicit arguments.
-/

namespace KoanfTest

abbrev Str := List Char

/-! ## Values and maps -/

/-- Scalar held in a mapping (`interface{}`) or in a struct field: a string,
a boolean, an untyped `nil`, or a `*string` (`none` is the nil pointer). -/
inductive Value where
  | str (s : Str)
  | bool (b : Bool)
  | null
  | ptr (target : Option Str)
  deriving DecidableEq, Repr

/-- Go `map[string]interface{}` with scalar values; keys are unique and the
first pair for a key is the live one. -/
abbrev FlatMap := List (Str × Value)

/-- Path of a leaf in a nested map. -/
abbrev Path := List Str

/-- Nested `map[string]interface{}`, as the list of its leaves. -/
abbrev Conf := List (Path × Value)

/-- Behaviour fixed by the Go runtime and the Unicode tables. -/
structure Lib where
  /-- Table `unicode.ToLower`. -/
  lower : Char → Char
  /-- Table `unicode.ToUpper`. -/
  upper : Char → Char
  /-- Representative of a character under simple case folding. -/
  fold : Char → Char
  /-- Text `%v` prints for a non-nil `*string` with the given target. -/
  pointerText : Str → Str
  /-- Text `%v` prints for a nested map. -/
  mapText : Conf → Str
  /-- Order in which a Go map with the given entries is iterated. -/
  order : (α : Type) → List α → List α

/-- What is known of the runtime: the case tables act on ASCII characters as
the ASCII case maps do, and iterating a map visits every entry once. -/
def Lib.ok (L : Lib) : Prop :=
  (∀ c : Char, c.toNat < 128 → L.lower c = c.toLower ∧ L.upper c = c.toUpper) ∧
  (∀ (α : Type) (l : List α), (L.order α l).Perm l)

/-- A runtime for evaluation on ASCII inputs: ASCII case tables, maps
iterated in list order. -/
def asciiLib : Lib :=
  { lower := Char.toLower, upper := Char.toUpper, fold := Char.toLower,
    pointerText := fun _ => "0xc000010000".toList,
    mapText := fun _ => "map[]".toList,
    order := fun _ l => l }

/-! ## `strings` helpers -/

/-- Go `strings.HasPrefix`. -/
def hasPrefix (s p : Str) : Bool := p.isPrefixOf s

/-- Go `strings.TrimPrefix`. -/
def trimPrefix (s p : Str) : Str := if hasPrefix s p then s.drop p.length else s

/-- Go `strings.ToLower`. -/
def toLower (L : Lib) (s : Str) : Str := s.map L.lower

/-- Go `strings.ToUpper`. -/
def toUpper (L : Lib) (s : Str) : Str := s.map L.upper

/-- Go `strings.EqualFold`. -/
def equalFold (L : Lib) (a b : Str) : Bool := decide (a.map L.fold = b.map L.fold)

/-- Left-to-right scan of `strings.ReplaceAll` for a non-empty `old`; the
counter is the number of characters of the current match still to skip. -/
def replaceFrom (old new : Str) : Str → Nat → Str
  | [], _ => []
  | _ :: t, skip + 1 => replaceFrom old new t skip
  | c :: t, 0 =>
    if old.isPrefixOf (c :: t) then new ++ replaceFrom old new t (old.length - 1)
    else c :: replaceFrom old new t 0

/-- Go `strings.ReplaceAll`: non-overlapping occurrences of `old`, left to
right; an empty `old` matches before every character and at the end. -/
def replaceAll (s old new : Str) : Str :=
  if old = [] then new ++ s.flatMap (fun c => c :: new) else replaceFrom old new s 0

/-- Left-to-right scan of `strings.Split` for a non-empty separator; `cur`
holds the current piece in reverse. -/
def splitFrom (sep : Str) : Str → Nat → Str → List Str
  | [], _, cur => [cur.reverse]
  | _ :: t, skip + 1, cur => splitFrom sep t skip cur
  | c :: t, 0, cur =>
    if sep.isPrefixOf (c :: t) then cur.reverse :: splitFrom sep t (sep.length - 1) []
    else splitFrom sep t 0 (c :: cur)

/-- Go `strings.Split`: an empty separator splits after every character. -/
def split (sep s : Str) : List Str :=
  if sep = [] then s.map (fun c => [c]) else splitFrom sep s 0 []

/-- Go `strings.Join`. -/
def join (sep : Str) : List Str → Str
  | [] => []
  | [a] => a
  | a :: b :: rest => a ++ sep ++ join sep (b :: rest)

/-- Go `strconv.ParseBool`. -/
def parseBool (s : Str) : Option Bool :=
  if s ∈ ["1".toList, "t".toList, "T".toList, "TRUE".toList, "true".toList, "True".toList] then
    some true
  else if s ∈ ["0".toList, "f".toList, "F".toList, "FALSE".toList, "false".toList,
      "False".toList] then
    some false
  else none

def formatBool (b : Bool) : Str := if b then "true".toList else "false".toList

/-! ## Flat maps -/

/-- Map read `m[key]`. -/
def FlatMap.get (m : FlatMap) (key : Str) : Option Value :=
  match m with
  | [] => none
  | (k, v) :: rest => if k = key then some v else FlatMap.get rest key

/-- Map write `m[key] = v`. -/
def FlatMap.set (m : FlatMap) (key : Str) (v : Value) : FlatMap :=
  (key, v) :: m.filter (fun e => !decide (e.1 = key))

/-- The map after the writes `src`, in order, over `dst`. -/
def load (dst src : FlatMap) : FlatMap :=
  src.foldl (fun acc e => FlatMap.set acc e.1 e.2) dst

/-! ## Nested maps (`koanf/maps`) -/

/-- One path is a prefix of the other: the two leaves cannot both be in a
nested map. -/
def related (p q : Path) : Bool := p.isPrefixOf q || q.isPrefixOf p

/-- Merge of one leaf into a nested map: it replaces what the map holds at,
above and below its path. -/
def Conf.put (c : Conf) (p : Path) (v : Value) : Conf :=
  (p, v) :: c.filter (fun e => !related p e.1)

/-- Function `maps.Merge(src, dst)`: the target after the merge. -/
def merge (src dst : Conf) : Conf :=
  src.foldl (fun acc e => Conf.put acc e.1 e.2) dst

/-- Walk of `maps.Unflatten` through the key parts before the last: a part
under which the map holds a scalar is stepped over, any other part is
entered. -/
def descend (c : Conf) : Path → List Str → Path
  | pre, [] => pre
  | pre, part :: rest =>
    if c.any (fun e => decide (e.1 = pre ++ [part])) then descend c pre rest
    else descend c (pre ++ [part]) rest

/-- Assignment `next[last] = v` of `maps.Unflatten`: whatever was at the
path is replaced. -/
def assign (c : Conf) (p : Path) (v : Value) : Conf :=
  (p, v) :: c.filter (fun e => !p.isPrefixOf e.1)

/-- Body of the loop of `maps.Unflatten` for one flat entry. -/
def unflattenOne (delim : Str) (c : Conf) (e : Str × Value) : Conf :=
  assign c (descend c [] (split delim e.1).dropLast ++ [(split delim e.1).getLastD []]) e.2

/-- Function `maps.Unflatten(m, delim)`, run when `delim` is not empty;
otherwise the flat map is itself the nested map. -/
def unflatten (L : Lib) (delim : Str) (m : FlatMap) : Conf :=
  if delim = [] then m.map (fun e => ([e.1], e.2))
  else (L.order _ m).foldl (unflattenOne delim) []

/-- Function `maps.Flatten(c, nil, delim)`: every leaf under its joined
path, later leaves over earlier ones. -/
def flatten (L : Lib) (delim : Str) (c : Conf) : FlatMap :=
  load [] ((L.order _ c).map (fun e => (join delim e.1, e.2)))

/-- Method `Get(path)` of a koanf instance: `none` is the panic on a nil
pointer; a path that names a nested map yields no scalar. -/
def koanfGet (L : Lib) (delim : Str) (c : Conf) (key : Str) : Option (Option Value) :=
  match (flatten L delim c).get key with
  | some (Value.ptr none) => none
  | r => some r

/-- The koanf getter `String(path)`: the string at the path, any other value
as `%v` prints it, `""` for a missing path; `none` is the panic of `Get`. -/
def koanfString (L : Lib) (delim : Str) (c : Conf) (key : Str) : Option Str :=
  match koanfGet L delim c key with
  | none => none
  | some (some (Value.str s)) => some s
  | some (some (Value.bool b)) => some (formatBool b)
  | some (some (Value.ptr (some s))) => some (L.pointerText s)
  | some (some _) => some []
  | some none =>
    if c.any (fun e => (split delim key).isPrefixOf e.1) then some (L.mapText c) else some []

/-- The koanf getter `Bool(path)`: a boolean as is, a string through
`strconv.ParseBool`, `false` otherwise; `none` is the panic of `Get`. -/
def koanfBool (L : Lib) (delim : Str) (c : Conf) (key : Str) : Option Bool :=
  match koanfGet L delim c key with
  | none => none
  | some (some (Value.bool b)) => some b
  | some (some (Value.str s)) => some ((parseBool s).getD false)
  | some _ => some false

/-! ## Parse options -/

/-- Record `parseOption`. -/
structure parseOption where
  envPrefix : Str
  delimiter : Str
  tag : Str
  flatStruct : Bool
  helpFlag : Str
  configPathKey : Str
  descriptionTag : Str
  deriving DecidableEq, Repr

/-- Functional option `ParseOption`. -/
abbrev ParseOption := parseOption → parseOption

def WithEnvPrefix (pre : Str) : ParseOption := fun po => { po with envPrefix := pre }

def WithDelimiter (delimiter : Str) : ParseOption := fun po => { po with delimiter := delimiter }

def WithStructTagName (tag : Str) : ParseOption := fun po => { po with tag := tag }

def WithDescriptionStructTagName (tag : Str) : ParseOption :=
  fun po => { po with descriptionTag := tag }

/-- Literal `op` at the top of `RegisterFlags` and of `Marshal`. -/
def defaultOption : parseOption :=
  { envPrefix := "SNKD_".toList, delimiter := ".".toList, tag := "koanf".toList,
    flatStruct := true, helpFlag := "help".toList, configPathKey := "config".toList,
    descriptionTag := "description".toList }

/-- Loop `for _, o := range options { o(&op) }`. -/
def applyOptions (options : List ParseOption) : parseOption :=
  options.foldl (fun op o => o op) defaultOption

/-- Closure `transform` of `RegisterFlags`. -/
def transform (L : Lib) (op : parseOption) (s : Str) : Str :=
  toLower L (replaceAll s "_".toList op.delimiter)

/-- Closure `f` of `RegisterFlags`. -/
def f (L : Lib) (op : parseOption) (s : Str) : Str :=
  transform L op (trimPrefix s op.envPrefix)

/-- Closure `transform` of `Marshal`. -/
def Marshal.transform (L : Lib) (op : parseOption) (s : Str) : Str :=
  op.envPrefix ++ toUpper L (replaceAll s op.delimiter "_".toList)

/-- Expression `strings.ReplaceAll(key, op.delimiter, "-")` of the flag loop. -/
def flagName (op : parseOption) (key : Str) : Str :=
  replaceAll key op.delimiter "-".toList

/-! ## Schema and destination struct -/

/-- Go type of a schema field. -/
inductive Kind where
  | string
  | bool
  | optString
  deriving DecidableEq, Repr

/-- One field of the destination struct: its Go name, its struct tags, its
type and its current value. -/
structure Field where
  name : Str
  tags : List (Str × Str)
  kind : Kind
  value : Value
  deriving DecidableEq, Repr

/-- Key of a field under a struct tag: the tag's value, or the field name
when the tag is missing or empty. -/
def Field.tag (fld : Field) (t : Str) : Str :=
  match fld.tags.lookup t with
  | some v => if v = [] then fld.name else v
  | none => fld.name

/-- The destination struct `*T`: its fields. -/
abbrev Config := List Field

/-- Map built by `structs.ProviderWithDelim(config, op.tag, op.delimiter)`
before it is unflattened: every field under its `op.tag` key; a pointer
field enters as the pointer. -/
def structsProvider (op : parseOption) (config : Config) : FlatMap :=
  load [] (config.map (fun fld => (fld.tag op.tag, fld.value)))

/-- Function `keys`. -/
def keys (m : FlatMap) : List Str := m.map Prod.fst

/-- Function `filter`. -/
def filter (m : FlatMap) (keys : List Str) : FlatMap :=
  m.filter (fun e => decide (e.1 ∈ keys))

/-- Go `fmt.Sprint(v)` and `fmt.Sprintf("%v", v)` on a mapping value. -/
def sprint (L : Lib) (v : Value) : Str :=
  match v with
  | Value.str s => s
  | Value.bool b => formatBool b
  | Value.null => "<nil>".toList
  | Value.ptr none => "<nil>".toList
  | Value.ptr (some s) => L.pointerText s

/-! ## Flag set (`pflag`) -/

/-- One defined flag. -/
structure Flag where
  name : Str
  shorthand : Option Char
  isBool : Bool
  value : Str
  changed : Bool
  deriving DecidableEq, Repr

/-- State of a `pflag.FlagSet`. -/
structure FlagSet where
  flags : List Flag
  unknownFlags : Bool
  deriving DecidableEq, Repr

def FlagSet.lookup (fs : FlagSet) (name : Str) : Option Flag :=
  fs.flags.find? (fun fl => decide (fl.name = name))

def FlagSet.lookupShort (fs : FlagSet) (c : Char) : Option Flag :=
  fs.flags.find? (fun fl => decide (fl.shorthand = some c))

/-- Method `AddFlag`: `none` is the panic on a redefined name or shorthand. -/
def FlagSet.addFlag (fs : FlagSet) (fl : Flag) : Option FlagSet :=
  if (fs.lookup fl.name).isSome then none
  else match fl.shorthand with
    | some c => if (fs.lookupShort c).isSome then none
                else some { fs with flags := fs.flags ++ [fl] }
    | none => some { fs with flags := fs.flags ++ [fl] }

/-- Method `fs.StringP(name, shorthand, value, usage)`. -/
def FlagSet.StringP (fs : FlagSet) (name : Str) (short : Char) (value : Str) : Option FlagSet :=
  fs.addFlag { name := name, shorthand := some short, isBool := false, value := value,
               changed := false }

/-- Method `fs.String(name, value, usage)`. -/
def FlagSet.String (fs : FlagSet) (name : Str) (value : Str) : Option FlagSet :=
  fs.addFlag { name := name, shorthand := none, isBool := false, value := value,
               changed := false }

/-- Method `fs.Bool(name, value, usage)`. -/
def FlagSet.Bool (fs : FlagSet) (name : Str) (value : Bool) : Option FlagSet :=
  fs.addFlag { name := name, shorthand := none, isBool := true, value := formatBool value,
               changed := false }

/-- Body of the loop `for key, v := range filter(k.All(), knownKeys)` for one
entry. -/
def registerOne (L : Lib) (op : parseOption) (fs : FlagSet) (e : Str × Value) :
    Option FlagSet :=
  match e.2 with
  | Value.bool x => fs.Bool (flagName op e.1) x
  | v =>
    if flagName op e.1 = op.configPathKey then some fs
    else fs.String (flagName op e.1) (match v with | Value.null => [] | w => sprint L w)

/-- The whole loop, over the entries in iteration order. -/
def registerAll (L : Lib) (op : parseOption) : FlagSet → FlatMap → Option FlagSet
  | fs, [] => some fs
  | fs, e :: rest =>
    match registerOne L op fs e with
    | none => none
    | some fs1 => registerAll L op fs1 rest

/-- What `RegisterFlags` leaves behind for its closure: the options, the
captured instance `k` and the flag set. -/
structure Registered where
  op : parseOption
  k : Conf
  fs : FlagSet
  deriving DecidableEq, Repr

/-- The instance `k` after `k.Load(structs.ProviderWithDelim(...), nil)`. -/
def defaultsConf (L : Lib) (op : parseOption) (config : Config) : Conf :=
  merge (unflatten L op.delimiter (structsProvider op config)) []

/-- Function `RegisterFlags` up to the `return`: `none` is a panic of the flag
library.  The deferred function restores `ParseErrorsWhitelist` when
`RegisterFlags` returns. -/
def RegisterFlags (L : Lib) (config : Config) (fs0 : FlagSet) (options : List ParseOption) :
    Option Registered :=
  let op := applyOptions options
  let k := defaultsConf L op config
  let knownKeys := keys (flatten L op.delimiter k) ++ [op.configPathKey]
  let before := fs0.unknownFlags
  let fs1 : FlagSet := { fs0 with unknownFlags := true }
  match fs1.StringP op.configPathKey 'c' [] with
  | none => none
  | some fs2 =>
    match registerAll L op fs2 (L.order _ (filter (flatten L op.delimiter k) knownKeys)) with
    | none => none
    | some fs3 => some { op := op, k := k, fs := { fs3 with unknownFlags := before } }

/-! ## Command-line parsing (`FlagSet.Parse`) -/

/-- Error kinds surfaced by the parse operation. -/
inductive Err where
  | sourceLoad (path : Str)
  | flagParse (detail : Str)
  | decode (key : Str)
  | validation (detail : Str)
  deriving DecidableEq, Repr

/-- Method `FlagSet.Set`: `none` is the `invalid argument` error of a boolean
flag. -/
def FlagSet.set (fs : FlagSet) (name value : Str) : Option FlagSet :=
  match fs.lookup name with
  | none => none
  | some fl =>
    if fl.isBool then
      match parseBool value with
      | none => none
      | some b => some { fs with flags := fs.flags.map (fun g =>
          if g.name = name then { g with value := formatBool b, changed := true } else g) }
    else some { fs with flags := fs.flags.map (fun g =>
          if g.name = name then { g with value := value, changed := true } else g) }

/-- Function `stripUnknownFlagValue`, as the number of arguments it drops. -/
def stripUnknownFlagValue (args : List Str) : Nat :=
  match args with
  | [] => 0
  | first :: _ => if first.head? = some '-' then 0 else 1

/-- Outcome of parsing one argument: the flag set, an error if any, and the
number of following arguments consumed. -/
abbrev ArgStep := FlagSet × Option Err × Nat

def setOr (fs : FlagSet) (name value : Str) (n : Nat) : ArgStep :=
  match fs.set name value with
  | none => (fs, some (Err.flagParse ("invalid argument ".toList ++ value)), n)
  | some fs1 => (fs1, none, n)

/-- Method `parseLongArg`; `s` is the whole argument, `a` the arguments after
it. -/
def parseLongArg (fs : FlagSet) (s : Str) (a : List Str) : ArgStep :=
  let name0 := s.drop 2
  if name0 = [] ∨ name0.head? = some '-' ∨ name0.head? = some '=' then
    (fs, some (Err.flagParse ("bad flag syntax: ".toList ++ s)), 0)
  else
    let name := name0.takeWhile (fun c => decide (c ≠ '='))
    let hasValue := decide ('=' ∈ name0)
    let value := (name0.dropWhile (fun c => decide (c ≠ '='))).drop 1
    match fs.lookup name with
    | none =>
      if name = "help".toList then (fs, some (Err.flagParse "pflag: help requested".toList), 0)
      else if fs.unknownFlags then
        (fs, none, if hasValue then 0 else stripUnknownFlagValue a)
      else (fs, some (Err.flagParse ("unknown flag: --".toList ++ name)), 0)
    | some fl =>
      if hasValue then setOr fs name value 0
      else if fl.isBool then setOr fs name "true".toList 0
      else match a with
        | v :: _ => setOr fs name v 1
        | [] => (fs, some (Err.flagParse ("flag needs an argument: --".toList ++ name)), 0)

/-- Loop of `parseShortArg` over `parseSingleShortArg`; `n` arguments of `a`
are already consumed. -/
def parseShortArg (fs : FlagSet) (a : List Str) : Str → Nat → ArgStep
  | [], n => (fs, none, n)
  | c :: rest, n =>
    if hasPrefix (c :: rest) "test.".toList then (fs, none, n)
    else match fs.lookupShort c with
      | none =>
        if c = 'h' then (fs, some (Err.flagParse "pflag: help requested".toList), n)
        else if fs.unknownFlags then
          if 2 < (c :: rest).length ∧ rest.head? = some '=' then (fs, none, n)
          else parseShortArg fs a rest (n + stripUnknownFlagValue (a.drop n))
        else (fs, some (Err.flagParse ("unknown shorthand flag: ".toList ++ [c])), n)
      | some fl =>
        if 2 < (c :: rest).length ∧ rest.head? = some '=' then setOr fs fl.name (rest.drop 1) n
        else if fl.isBool then
          match fs.set fl.name "true".toList with
          | none => (fs, some (Err.flagParse "invalid argument".toList), n)
          | some fs1 => parseShortArg fs1 a rest n
        else if rest ≠ [] then setOr fs fl.name rest n
        else match a.drop n with
          | v :: _ => setOr fs fl.name v (n + 1)
          | [] => (fs, some (Err.flagParse ("flag needs an argument: ".toList ++ [c])), n)

/-- Method `parseArgs`; the counter is the number of arguments already
consumed as flag values. -/
def parseArgsFrom : FlagSet → List Str → Nat → FlagSet × Option Err
  | fs, [], _ => (fs, none)
  | fs, _ :: t, n + 1 => parseArgsFrom fs t n
  | fs, s :: t, 0 =>
    if s.length ≤ 1 ∨ s.head? ≠ some '-' then parseArgsFrom fs t 0
    else if (s.drop 1).head? = some '-' then
      if s.length = 2 then (fs, none)
      else match parseLongArg fs s t with
        | (fs1, some e, _) => (fs1, some e)
        | (fs1, none, n) => parseArgsFrom fs1 t n
    else match parseShortArg fs t (s.drop 1) 0 with
      | (fs1, some e, _) => (fs1, some e)
      | (fs1, none, n) => parseArgsFrom fs1 t n

/-- Method `fs.Parse(arguments)` of a flag set that continues on error. -/
def FlagSet.Parse (fs : FlagSet) (arguments : List Str) : FlagSet × Option Err :=
  parseArgsFrom fs arguments 0

/-! ## Source providers -/

/-- Process environment: `NAME=value` pairs in `os.Environ()` order. -/
abbrev Env := List (Str × Str)

/-- File system seen through `file.Provider` and the dotenv reader: the
`KEY=value` map of the file at a path; `none` when the file cannot be read or
parsed. -/
abbrev Files := Str → Option (List (Str × Str))

/-- Map built by `env.Provider(op.envPrefix, op.delimiter, f)` before it is
unflattened: variables with the prefix, keyed by `f`; a blank key is
omitted. -/
def envProvider (L : Lib) (op : parseOption) (env : Env) : FlatMap :=
  load [] (env.filterMap (fun e =>
    if hasPrefix e.1 op.envPrefix then
      (if f L op e.1 = [] then none else some (f L op e.1, Value.str e.2))
    else none))

/-- Map built by `dotenv.ParserEnv(op.envPrefix, op.delimiter, f)` from the
map of a file, before it is unflattened. -/
def dotenvParserEnv (L : Lib) (op : parseOption) (lines : List (Str × Str)) : FlatMap :=
  load [] ((L.order _ lines).filterMap (fun e =>
    if hasPrefix e.1 op.envPrefix then some (f L op e.1, Value.str e.2) else none))

/-- Map built by `posflag.ProviderWithValue(fs, op.delimiter, nil, cb)` before
it is unflattened: the changed flags, keyed by `transform` of the flag name,
with the flag's string value.  The order of the visit is left to `Lib`; it
matters only when two flags share a key. -/
def posflagProvider (L : Lib) (op : parseOption) (fs : FlagSet) : FlatMap :=
  load [] ((L.order _ fs.flags).filterMap (fun fl =>
    if fl.changed then some (transform L op fl.name, Value.str fl.value) else none))

/-- Nested map of `confmap.Provider(m, "-")`. -/
def confmapProvider (L : Lib) (m : FlatMap) : Conf :=
  unflatten L "-".toList m

/-- Method `k.Load(provider, parser)` for a provider whose map is unflattened
with the instance delimiter. -/
def koanfLoad (L : Lib) (op : parseOption) (k : Conf) (m : FlatMap) : Conf :=
  merge (unflatten L op.delimiter m) k

/-! ## Unmarshal -/

/-- Weakly typed decoding of one mapping value into a field. -/
def decodeValue (key : Str) (kind : Kind) (cur v : Value) : Except Err Value :=
  match kind, v with
  | _, Value.null => Except.ok cur
  | _, Value.ptr none => Except.ok cur
  | Kind.bool, Value.bool b => Except.ok (Value.bool b)
  | Kind.bool, Value.str s =>
    match parseBool s with
    | some b => Except.ok (Value.bool b)
    | none => if s = [] then Except.ok (Value.bool false) else Except.error (Err.decode key)
  | Kind.bool, Value.ptr (some s) =>
    match parseBool s with
    | some b => Except.ok (Value.bool b)
    | none => if s = [] then Except.ok (Value.bool false) else Except.error (Err.decode key)
  | Kind.string, Value.str s => Except.ok (Value.str s)
  | Kind.string, Value.ptr (some s) => Except.ok (Value.str s)
  | Kind.string, Value.bool b => Except.ok (Value.str (if b then "1".toList else "0".toList))
  | Kind.optString, Value.str s => Except.ok (Value.ptr (some s))
  | Kind.optString, Value.ptr (some s) => Except.ok (Value.ptr (some s))
  | Kind.optString, Value.bool b =>
    Except.ok (Value.ptr (some (if b then "1".toList else "0".toList)))

/-- Mapping value the decoder finds for a field name: the exact key, else
the first key equal to it under case folding. -/
def fieldSource (L : Lib) (m : FlatMap) (key : Str) : Option Value :=
  match m.get key with
  | some v => some v
  | none => ((L.order _ m).find? (fun e => equalFold L e.1 key)).map Prod.snd

/-- Decoding of one field from the merged mapping; the decoder names the
field by its `koanf` tag.  A key absent from the mapping leaves the field as
it is. -/
def decodeField (L : Lib) (m : FlatMap) (fld : Field) : Field × Option Err :=
  match fieldSource L m (fld.tag "koanf".toList) with
  | none => (fld, none)
  | some v =>
    match decodeValue (fld.tag "koanf".toList) fld.kind fld.value v with
    | Except.ok w => ({ fld with value := w }, none)
    | Except.error e => (fld, some e)

/-- Method `k.UnmarshalWithConf("", config, ...)` with flat paths on `k`:
every field is decoded from the flattened map; the first decoding error, if
any, is returned. -/
def unmarshal (L : Lib) (op : parseOption) (k : Conf) (config : Config) :
    Config × Option Err :=
  ((config.map (decodeField L (flatten L op.delimiter k))).map Prod.fst,
   ((config.map (decodeField L (flatten L op.delimiter k))).filterMap Prod.snd).head?)

/-! ## The parse closure -/

/-- What a call of the closure does: it returns nil, returns an error, or
panics. -/
inductive Ret where
  | ok
  | err (e : Err)
  | panic
  deriving DecidableEq, Repr

/-- Outcome of the file-resolution loop. -/
structure Resolved where
  flagK : Conf
  k : Conf
  read : List Str
  ret : Ret
  deriving DecidableEq, Repr

/-- One iteration of `for _, k := range []*koanf.Koanf{flagK, k}`. -/
inductive Step where
  | skip
  | panic
  | failed (path : Str)
  | loaded (path : Str) (m : Conf)
  deriving DecidableEq, Repr

/-- Body of the loop: `k.String(op.configPathKey)`, then `continue` on an
empty path, else `k.Load(file.Provider(configPath), dotenv.ParserEnv(...))`
into the same instance. -/
def tryLoad (L : Lib) (op : parseOption) (files : Files) (m : Conf) : Step :=
  match koanfString L op.delimiter m op.configPathKey with
  | none => Step.panic
  | some path =>
    if path = [] then Step.skip
    else match files path with
      | none => Step.failed path
      | some lines => Step.loaded path (koanfLoad L op m (dotenvParserEnv L op lines))

/-- The loop `for _, k := range []*koanf.Koanf{flagK, k}`; inside it `k` is
the loop variable. -/
def resolveFile (L : Lib) (op : parseOption) (files : Files) (flagK k : Conf) : Resolved :=
  match tryLoad L op files flagK with
  | Step.panic => ⟨flagK, k, [], Ret.panic⟩
  | Step.failed path => ⟨flagK, k, [path], Ret.err (Err.sourceLoad path)⟩
  | Step.loaded path flagK1 => ⟨flagK1, k, [path], Ret.ok⟩
  | Step.skip =>
    match tryLoad L op files k with
    | Step.panic => ⟨flagK, k, [], Ret.panic⟩
    | Step.failed path => ⟨flagK, k, [path], Ret.err (Err.sourceLoad path)⟩
    | Step.loaded path k1 => ⟨flagK, k1, [path], Ret.ok⟩
    | Step.skip => ⟨flagK, k, [], Ret.ok⟩

/-- Everything observable after one invocation of the parse closure. -/
structure Outcome where
  ret : Ret
  config : Config
  k : Conf
  fs : FlagSet
  read : List Str
  unmarshals : Nat
  validates : Nat
  deriving DecidableEq, Repr

/-- Interface `Validatable`: the method `Validate() error`. -/
abbrev Validatable := Config → Option Err

/-- The result of the assertion `a.(Validatable)` on the destination: its
`Validate` method, when it has one. -/
abbrev Validator := Option Validatable

/-- Result of the validation step on a decoded struct. -/
def validateResult (validate : Validator) (config : Config) : Ret :=
  match validate with
  | some v => (match v config with | some e => Ret.err e | none => Ret.ok)
  | none => Ret.ok

/-- The closure returned by `RegisterFlags`, run on the captured instance `k`
and flag set `fs`.  The text that wraps a flag error is not represented. -/
def parse (L : Lib) (op : parseOption) (validate : Validator) (env : Env) (args : List Str)
    (files : Files) (k : Conf) (fs : FlagSet) (config : Config) : Outcome :=
  let k1 := koanfLoad L op k (envProvider L op env)
  match fs.Parse args with
  | (fs1, some e) => ⟨Ret.err e, config, k1, fs1, [], 0, 0⟩
  | (fs1, none) =>
    let flagK := koanfLoad L op [] (posflagProvider L op fs1)
    match koanfBool L op.delimiter flagK op.helpFlag with
    | none => ⟨Ret.panic, config, k1, fs1, [], 0, 0⟩
    | some true => ⟨Ret.ok, config, k1, fs1, [], 0, 0⟩
    | some false =>
      let r := resolveFile L op files flagK k1
      match r.ret with
      | Ret.panic => ⟨Ret.panic, config, r.k, fs1, r.read, 0, 0⟩
      | Ret.err e => ⟨Ret.err e, config, r.k, fs1, r.read, 0, 0⟩
      | Ret.ok =>
        let k2 := merge (confmapProvider L (flatten L op.delimiter r.flagK)) r.k
        match unmarshal L op k2 config with
        | (config1, some e) => ⟨Ret.err e, config1, k2, fs1, r.read, 1, 0⟩
        | (config1, none) =>
          match validate with
          | some _ => ⟨validateResult validate config1, config1, k2, fs1, r.read, 1, 1⟩
          | none => ⟨Ret.ok, config1, k2, fs1, r.read, 1, 0⟩

/-- Registration followed by one invocation of the returned closure. -/
def run (L : Lib) (config : Config) (fs0 : FlagSet) (options : List ParseOption)
    (validate : Validator) (env : Env) (args : List Str) (files : Files) : Option Outcome :=
  (RegisterFlags L config fs0 options).map
    (fun r => parse L r.op validate env args files r.k r.fs config)

/-! ## Marshal -/

/-- Function `Marshal`, up to the rendering of the `KEY=value` lines: the
map handed to the dotenv writer. -/
def Marshal (L : Lib) (cfgs : List Config) (options : List ParseOption) : List (Str × Str) :=
  let op := applyOptions options
  let k := cfgs.foldl (fun k cfg => koanfLoad L op k (structsProvider op cfg)) []
  let m := flatten L op.delimiter k
  let envMap := load [] ((L.order _ m).map (fun e => (Marshal.transform L op e.1, e.2)))
  let k2 := merge (unflatten L [] envMap) []
  (L.order _ k2).map (fun e => (e.1.headD [], sprint L e.2))

/-! ## Example schemas of the specification and of the repository -/

/-- A string field tagged `koanf:"<key>"`. -/
def stringField (name key value : String) : Field :=
  ⟨name.toList, [("koanf".toList, key.toList)], Kind.string, Value.str value.toList⟩

/-- Schema `{client.id, client.secret}` with empty defaults. -/
def exampleConfig : Config :=
  [stringField "ClientId" "client.id" "", stringField "ClientSecret" "client.secret" ""]

/-- Struct `RootConfig` of `config.go` with its zero value: two strings and
the nil `*string` tagged `config`. -/
def rootConfig : Config :=
  [⟨"ClientId".toList, [("koanf".toList, "client.id".toList),
      ("description".toList, "client id".toList)], Kind.string, Value.str []⟩,
   ⟨"ClientSecret".toList, [("koanf".toList, "client.secret".toList),
      ("description".toList, "client secret".toList)], Kind.string, Value.str []⟩,
   ⟨"ConfigPath".toList, [("koanf".toList, "config".toList),
      ("description".toList, "Config file path (.env format)".toList)], Kind.optString,
      Value.ptr none⟩]

/-- Instance captured by `RegisterFlags` for `exampleConfig`. -/
def exampleK : Conf :=
  [(["client".toList, "secret".toList], Value.str []),
   (["client".toList, "id".toList], Value.str [])]

/-- Flag set left by `RegisterFlags` for `exampleConfig` on an empty flag
set. -/
def exampleFlags : FlagSet :=
  ⟨[⟨"config".toList, some 'c', false, [], false⟩,
    ⟨"client-id".toList, none, false, [], false⟩,
    ⟨"client-secret".toList, none, false, [], false⟩], false⟩

/-- The flag set once the surrounding command has added its boolean `help`
flag. -/
def exampleFlagsHelp : FlagSet :=
  { exampleFlags with flags := exampleFlags.flags ++
      [⟨"help".toList, some 'h', true, "false".toList, false⟩] }

/-- File system without any file. -/
def noFiles : Files := fun _ => none

/-- Schema with one key that contains an underscore. -/
def underscoreConfig : Config := [stringField "ClientId" "client_id" ""]

/-- Environment `SNKD_CLIENT_ID=abc`. -/
def specEnv : Env := [("SNKD_CLIENT_ID".toList, "abc".toList)]

/-- Command line `prog --client-secret=xyz`. -/
def specArgs : List Str := ["prog".toList, "--client-secret=xyz".toList]

/-- Command line `prog --client-secret=xyz --client-id=override`. -/
def specArgsOverride : List Str :=
  ["prog".toList, "--client-secret=xyz".toList, "--client-id=override".toList]

/-- What a claim reads off an outcome: what the call did, the destination
struct and the files read. -/
def Outcome.view (o : Outcome) : Ret × Config × List Str := (o.ret, o.config, o.read)

/-- Environment naming the config file `app.env` and setting the client id. -/
def fileEnv : Env :=
  [("SNKD_CONFIG".toList, "app.env".toList), ("SNKD_CLIENT_ID".toList, "fromenv".toList)]

/-- File system with the single file `app.env` holding
`SNKD_CLIENT_ID=fromfile`. -/
def appFiles : Files := fun p =>
  if p = "app.env".toList then some [("SNKD_CLIENT_ID".toList, "fromfile".toList)] else none

/-- Schema with a hyphenated key and a boolean field. -/
def hyphenConfig : Config :=
  [stringField "LogLevel" "log-level" "",
   ⟨"Debug".toList, [("koanf".toList, "debug".toList)], Kind.bool, Value.bool false⟩]

/-- Instance captured by `RegisterFlags` for `hyphenConfig`. -/
def hyphenK : Conf :=
  [(["debug".toList], Value.bool false), (["log-level".toList], Value.str [])]

/-- Environment naming `app.env` and setting both keys of `hyphenConfig`. -/
def hyphenEnv : Env :=
  [("SNKD_CONFIG".toList, "app.env".toList), ("SNKD_LOG-LEVEL".toList, "warn".toList),
   ("SNKD_DEBUG".toList, "false".toList)]

/-- Map of the file `app.env` for `hyphenConfig`. -/
def hyphenLines : List (Str × Str) :=
  [("SNKD_LOG-LEVEL".toList, "info".toList), ("SNKD_DEBUG".toList, "true".toList)]

/-- File system with the single file `app.env` holding `hyphenLines`. -/
def hyphenFiles : Files := fun p => if p = "app.env".toList then some hyphenLines else none

/-- Struct `RootConfig` whose `ConfigPath` points to the string `app.env`. -/
def rootConfigSet : Config :=
  [stringField "ClientId" "client.id" "", stringField "ClientSecret" "client.secret" "",
   ⟨"ConfigPath".toList, [("koanf".toList, "config".toList)], Kind.optString,
      Value.ptr (some "app.env".toList)⟩]

/-- Environment naming `other.env` as the config file. -/
def otherEnv : Env := [("SNKD_CONFIG".toList, "other.env".toList)]

/-- A validator that rejects every struct. -/
def rejectAll : Validator := some (fun _ => some (Err.validation "rejected".toList))

/-- Schema with one boolean field. -/
def boolConfig : Config :=
  [⟨"Debug".toList, [("koanf".toList, "debug".toList)], Kind.bool, Value.bool false⟩]

/-- Two invocations of the same parse closure, the second one in the
environment `env2`: the second runs on the instance, the flag set and the
destination the first left behind. -/
def parseTwice (L : Lib) (op : parseOption) (validate : Validator) (env1 env2 : Env)
    (args : List Str) (files : Files) (k : Conf) (fs : FlagSet) (config : Config) : Outcome :=
  parse L op validate env2 args files
    (parse L op validate env1 args files k fs config).k
    (parse L op validate env1 args files k fs config).fs
    (parse L op validate env1 args files k fs config).config

/-- Schema whose config-path field is a string that defaults to `a.env`. -/
def pathConfig : Config :=
  [stringField "ConfigPath" "config" "a.env", stringField "ClientId" "client.id" ""]

/-- File system in which `a.env` redirects the config key to `b.env`. -/
def chainFiles : Files := fun p =>
  if p = "a.env".toList then
    some [("SNKD_CONFIG".toList, "b.env".toList), ("SNKD_CLIENT_ID".toList, "one".toList)]
  else if p = "b.env".toList then some [("SNKD_CLIENT_ID".toList, "two".toList)]
  else none

/-- An instance with non-empty values: a string, a hyphenated key and a
boolean set to true. -/
def marshalConfig : Config :=
  [stringField "ClientId" "client.id" "abc", stringField "LogLevel" "log-level" "info",
   ⟨"Debug".toList, [("koanf".toList, "debug".toList)], Kind.bool, Value.bool true⟩]

/-- File system whose file `app.env` holds what `Marshal` writes for
`marshalConfig`. -/
def marshalFiles : Files := fun p =>
  if p = "app.env".toList then some (Marshal asciiLib [marshalConfig] []) else none

/-! ## Spec-side predicates -/

/-- Key that survives the environment naming: no character is `_` or
becomes `_` in upper case, and lower-casing the upper-cased character gives
it back. -/
def envKey (L : Lib) (key : Str) : Prop :=
  ∀ c ∈ key, L.lower (L.upper c) = c ∧ c ≠ '_' ∧ L.upper c ≠ '_'

instance (L : Lib) (key : Str) : Decidable (envKey L key) := by
  unfold envKey; infer_instance

/-- Key that survives the flag naming: no character is `_` or `-` or is
changed by lower-casing. -/
def flagKey (L : Lib) (key : Str) : Prop :=
  ∀ c ∈ key, L.lower c = c ∧ c ≠ '_' ∧ c ≠ '-'

instance (L : Lib) (key : Str) : Decidable (flagKey L key) := by
  unfold flagKey; infer_instance

/-- Path under which the merge step stores the value of the flag `name`. -/
def mergedPath (L : Lib) (op : parseOption) (name : Str) : Path :=
  split "-".toList (transform L op name)

/-- Flat key under which the merged mapping shows the value of the flag
`name`. -/
def mergedKey (L : Lib) (op : parseOption) (name : Str) : Str :=
  join op.delimiter (mergedPath L op name)

/-- No two keys of a flat map are stored at, above or below one another
once split by `delim`. -/
def cleanKeys (delim : Str) (m : FlatMap) : Prop :=
  ∀ a ∈ m, ∀ b ∈ m, related (split delim a.1) (split delim b.1) = true → a = b

instance (delim : Str) (m : FlatMap) : Decidable (cleanKeys delim m) := by
  unfold cleanKeys; infer_instance

/-- The nested map shows the flat key `key` only at the path of its split. -/
def ownPath (delim : Str) (c : Conf) (key : Str) : Prop :=
  ∀ e ∈ c, join delim e.1 = key → e.1 = split delim key

instance (delim : Str) (c : Conf) (key : Str) : Decidable (ownPath delim c key) := by
  unfold ownPath; infer_instance

/-- A nested map that is about to be merged leaves the flat key `key` of the
target alone: none of its leaves joins to `key` or lies at, above or below a
leaf of the target that joins to `key`. -/
def leavesAlone (delim : Str) (src dst : Conf) (key : Str) : Prop :=
  ∀ s ∈ src, join delim s.1 ≠ key ∧
    ∀ e ∈ dst, join delim e.1 = key → related s.1 e.1 = false

instance (delim : Str) (src dst : Conf) (key : Str) :
    Decidable (leavesAlone delim src dst key) := by
  unfold leavesAlone; infer_instance

/-- Names of the flags the registration loop defines for the entries `k` of
the defaults mapping, in iteration order: the flag name of every key, except
a non-boolean key whose flag name is the config-path key. -/
def expectedFlagNames (op : parseOption) (k : FlatMap) : List Str :=
  k.filterMap (fun e =>
    match e.2 with
    | Value.bool _ => some (flagName op e.1)
    | _ => if flagName op e.1 = op.configPathKey then none else some (flagName op e.1))

/-- A field of a scalar type that holds a value of its type: a string field
with a string, or a boolean field with a boolean. -/
def scalarField (fld : Field) : Prop :=
  (fld.kind = Kind.string ∧ ∃ s, fld.value = Value.str s) ∨
  (fld.kind = Kind.bool ∧ ∃ b, fld.value = Value.bool b)

/-- No two fields of a schema have keys stored at, above or below one
another; in particular no two fields share a key. -/
def cleanSchema (op : parseOption) (cfg : Config) : Prop :=
  ∀ a ∈ cfg, ∀ b ∈ cfg,
    related (split op.delimiter (a.tag op.tag)) (split op.delimiter (b.tag op.tag)) = true →
    a = b

instance (op : parseOption) (cfg : Config) : Decidable (cleanSchema op cfg) := by
  unfold cleanSchema; infer_instance

/-- A destination of the same struct type with other field values. -/
def withValues (cfg : Config) (g : Field → Value) : Config :=
  cfg.map (fun fld => { fld with value := g fld })

/-- The flags-only instance `flagK` built by one invocation. -/
def flagsOnly (L : Lib) (op : parseOption) (fs : FlagSet) (args : List Str) : Conf :=
  koanfLoad L op [] (posflagProvider L op (fs.Parse args).1)

/-- The instance `k` after the environment is loaded. -/
def withEnv (L : Lib) (op : parseOption) (env : Env) (k : Conf) : Conf :=
  koanfLoad L op k (envProvider L op env)

/-- State after the file-resolution loop of one invocation. -/
def resolved (L : Lib) (op : parseOption) (env : Env) (args : List Str) (files : Files)
    (k : Conf) (fs : FlagSet) : Resolved :=
  resolveFile L op files (flagsOnly L op fs args) (withEnv L op env k)

/-- The nested map the merge step loads: `confmap.Provider(flagK.All(), "-")`
on the flags-only instance as the file-resolution loop left it. -/
def flagsConf (L : Lib) (op : parseOption) (env : Env) (args : List Str) (files : Files)
    (k : Conf) (fs : FlagSet) : Conf :=
  confmapProvider L (flatten L op.delimiter (resolved L op env args files k fs).flagK)

/-- The merged instance of one invocation. -/
def merged (L : Lib) (op : parseOption) (env : Env) (args : List Str) (files : Files)
    (k : Conf) (fs : FlagSet) : Conf :=
  merge (flagsConf L op env args files k fs) (resolved L op env args files k fs).k

/-! ## Runtime facts -/

theorem asciiLib_ok : asciiLib.ok :=
  ⟨fun _ _ => ⟨rfl, rfl⟩, fun _ l => List.Perm.refl l⟩

theorem Lib.lower_hyphen {L : Lib} (h : L.ok) : L.lower '-' = '-' := by
  have := (h.1 '-' (by decide)).1
  rw [this]; decide

theorem Lib.upper_underscore {L : Lib} (h : L.ok) : L.upper '_' = '_' := by
  have := (h.1 '_' (by decide)).2
  rw [this]; decide

theorem Lib.mem_order {L : Lib} (h : L.ok) {α : Type} (l : List α) (a : α) :
    a ∈ L.order α l ↔ a ∈ l :=
  (h.2 α l).mem_iff

/-! ## `strings.ReplaceAll` -/

theorem replaceFrom_drop (old new : Str) (s : Str) (n : Nat) :
    replaceFrom old new s n = replaceFrom old new (s.drop n) 0 := by
  induction s generalizing n with
  | nil => simp [replaceFrom]
  | cons c t ih =>
    cases n with
    | zero => simp
    | succ m => simp only [replaceFrom, List.drop_succ_cons]; exact ih m

theorem mem_replaceFrom (old new : Str) (s : Str) (n : Nat) (c : Char)
    (h : c ∈ replaceFrom old new s n) : c ∈ s ∨ c ∈ new := by
  induction s generalizing n with
  | nil => simp [replaceFrom] at h
  | cons a t ih =>
    cases n with
    | succ m =>
      simp only [replaceFrom] at h
      rcases ih m h with h1 | h1
      · exact Or.inl (List.mem_cons_of_mem _ h1)
      · exact Or.inr h1
    | zero =>
      simp only [replaceFrom] at h
      split at h
      · rcases List.mem_append.mp h with h1 | h1
        · exact Or.inr h1
        · rcases ih _ h1 with h2 | h2
          · exact Or.inl (List.mem_cons_of_mem _ h2)
          · exact Or.inr h2
      · rcases List.mem_cons.mp h with h1 | h1
        · exact Or.inl (h1 ▸ List.mem_cons_self _ _)
        · rcases ih _ h1 with h2 | h2
          · exact Or.inl (List.mem_cons_of_mem _ h2)
          · exact Or.inr h2

/-- Replacing a single character is a character-wise substitution. -/
theorem replaceAll_single (s : Str) (x : Char) (new : Str) :
    replaceAll s [x] new = s.flatMap (fun c => if c = x then new else [c]) := by
  have hne : ([x] : Str) ≠ [] := by simp
  simp only [replaceAll, hne, if_false]
  induction s with
  | nil => simp [replaceFrom]
  | cons c t ih =>
    simp only [replaceFrom, List.flatMap_cons]
    by_cases hc : c = x
    · subst hc
      simp [List.isPrefixOf, ih]
    · have : (x == c) = false := by simp [Ne.symm hc]
      simp [List.isPrefixOf, this, hc, ih]

/-- Replacing a character that does not occur changes nothing. -/
theorem replaceAll_absent (s : Str) (x : Char) (new : Str) (h : x ∉ s) :
    replaceAll s [x] new = s := by
  rw [replaceAll_single]
  induction s with
  | nil => rfl
  | cons c t ih =>
    have hc : c ≠ x := fun e => h (e ▸ List.mem_cons_self _ _)
    have ht : x ∉ t := fun e => h (List.mem_cons_of_mem _ e)
    simp [List.flatMap_cons, hc, ih ht]

/-- Replacing `old` by a character and then substituting characters by a
map that sends that character back to `old` and fixes the characters of the
string gives the string back. -/
theorem replaceFrom_inverse (old : Str) (hold : old ≠ []) (x : Char) (g : Char → Str)
    (hx : g x = old) :
    ∀ (n : Nat) (s : Str), s.length ≤ n → (∀ c ∈ s, g c = [c]) →
      (replaceFrom old [x] s 0).flatMap g = s := by
  intro n
  induction n with
  | zero =>
    intro s hs _
    have : s = [] := List.length_eq_zero.mp (Nat.le_zero.mp hs)
    subst this
    simp [replaceFrom]
  | succ n ih =>
    intro s hs hg
    cases s with
    | nil => simp [replaceFrom]
    | cons c t =>
      simp only [replaceFrom]
      by_cases hp : old.isPrefixOf (c :: t) = true
      · simp only [hp, if_true]
        obtain ⟨r, hr⟩ := List.isPrefixOf_iff_prefix.mp hp
        have hlen : 1 ≤ old.length := by
          cases old with
          | nil => exact absurd rfl hold
          | cons _ _ => simp
        have hdrop : t.drop (old.length - 1) = r := by
          have h1 : (c :: t).drop old.length = r := by
            rw [← hr]; simp
          obtain ⟨m, hm⟩ : ∃ m, old.length = m + 1 := ⟨old.length - 1, by omega⟩
          rw [hm] at h1 ⊢
          simpa using h1
        rw [replaceFrom_drop, hdrop]
        have hrlen : r.length ≤ n := by
          have : (c :: t).length = old.length + r.length := by rw [← hr]; simp
          simp only [List.length_cons] at this hs
          omega
        have hrg : ∀ c ∈ r, g c = [c] := by
          intro a ha
          apply hg
          rw [← hr]
          exact List.mem_append_right _ ha
        simp only [List.singleton_append, List.flatMap_cons, hx, ih r hrlen hrg]
        exact hr
      · simp only [hp]
        have htlen : t.length ≤ n := by simpa using hs
        have htg : ∀ a ∈ t, g a = [a] := fun a ha => hg a (List.mem_cons_of_mem _ ha)
        simp [List.flatMap_cons, hg c (List.mem_cons_self _ _), ih t htlen htg]

theorem map_id_of_forall (h : Char → Char) (s : Str) (hs : ∀ c ∈ s, h c = c) : s.map h = s := by
  induction s with
  | nil => rfl
  | cons c t ih =>
    simp only [List.map_cons]
    rw [hs c (List.mem_cons_self _ _), ih (fun a ha => hs a (List.mem_cons_of_mem _ ha))]

theorem trimPrefix_append (p s : Str) : trimPrefix (p ++ s) p = s := by
  have : hasPrefix (p ++ s) p = true := by
    simp [hasPrefix, List.isPrefixOf_iff_prefix]
  simp [trimPrefix, this]

theorem hasPrefix_append (p s : Str) : hasPrefix (p ++ s) p = true := by
  simp [hasPrefix, List.isPrefixOf_iff_prefix]

/-! ## `strings.Split` and `strings.Join` -/

theorem splitFrom_ne_nil (sep : Str) (s : Str) (n : Nat) (cur : Str) :
    splitFrom sep s n cur ≠ [] := by
  induction s generalizing n cur with
  | nil => simp [splitFrom]
  | cons c t ih =>
    cases n with
    | succ m => simp only [splitFrom]; exact ih m cur
    | zero =>
      simp only [splitFrom]
      split
      · simp
      · exact ih 0 (c :: cur)

theorem join_cons (sep a : Str) (l : List Str) (h : l ≠ []) :
    join sep (a :: l) = a ++ sep ++ join sep l := by
  cases l with
  | nil => exact absurd rfl h
  | cons b rest => rfl

theorem join_splitFrom (sep : Str) (hsep : sep ≠ []) (s : Str) (n : Nat) (cur : Str) :
    join sep (splitFrom sep s n cur) = cur.reverse ++ s.drop n := by
  induction s generalizing n cur with
  | nil => simp [splitFrom, join]
  | cons c t ih =>
    cases n with
    | succ m => simp only [splitFrom, List.drop_succ_cons]; exact ih m cur
    | zero =>
      simp only [splitFrom, List.drop_zero]
      by_cases hp : sep.isPrefixOf (c :: t) = true
      · simp only [hp, if_true]
        rw [join_cons _ _ _ (splitFrom_ne_nil _ _ _ _), ih]
        obtain ⟨r, hr⟩ := List.isPrefixOf_iff_prefix.mp hp
        have hlen : 1 ≤ sep.length := by
          cases sep with
          | nil => exact absurd rfl hsep
          | cons _ _ => simp
        have hdrop : t.drop (sep.length - 1) = r := by
          have h1 : (c :: t).drop sep.length = r := by
            rw [← hr]; simp
          obtain ⟨m, hm⟩ : ∃ m, sep.length = m + 1 := ⟨sep.length - 1, by omega⟩
          rw [hm] at h1 ⊢
          simpa using h1
        rw [hdrop, ← hr]
        simp
      · simp only [hp, Bool.false_eq_true, if_false]
        rw [ih]
        simp

/-- Joining the pieces of a split gives the string back. -/
theorem join_split (sep s : Str) (hsep : sep ≠ []) : join sep (split sep s) = s := by
  simp only [split, hsep, if_false]
  rw [join_splitFrom sep hsep]
  simp

theorem split_ne_nil (sep s : Str) (hsep : sep ≠ []) : split sep s ≠ [] := by
  simp only [split, hsep, if_false]
  exact splitFrom_ne_nil _ _ _ _

theorem splitFrom_replaceFrom (d : Str) (x : Char) (s : Str) (hx : x ∉ s) (n : Nat)
    (cur : Str) :
    splitFrom [x] (replaceFrom d [x] s n) 0 cur = splitFrom d s n cur := by
  induction s generalizing n cur with
  | nil => simp [replaceFrom, splitFrom]
  | cons c t ih =>
    have hc : c ≠ x := fun e => hx (e ▸ List.mem_cons_self _ _)
    have ht : x ∉ t := fun e => hx (List.mem_cons_of_mem _ e)
    cases n with
    | succ m => simp only [replaceFrom, splitFrom]; exact ih ht m cur
    | zero =>
      simp only [replaceFrom, splitFrom]
      by_cases hp : d.isPrefixOf (c :: t) = true
      · simp only [hp, if_true, List.singleton_append, splitFrom]
        simp [List.isPrefixOf, ih ht]
      · simp only [hp]
        have hxc : (x == c) = false := by simp [Ne.symm hc]
        simp [splitFrom, List.isPrefixOf, hxc, ih ht]

/-- Splitting on a fresh character after replacing the separator by it is
splitting on the separator. -/
theorem split_replaceAll (d : Str) (hd : d ≠ []) (x : Char) (s : Str) (hx : x ∉ s) :
    split [x] (replaceAll s d [x]) = split d s := by
  have hne : ([x] : Str) ≠ [] := by simp
  simp only [split, replaceAll, hd, hne, if_false]
  exact splitFrom_replaceFrom d x s hx 0 []

/-! ## Key transforms -/

/-- The flag of a flag-safe key is read back under its own name, and the
merge step stores it at the path of the key. -/
theorem mergedPath_flagName (L : Lib) (hL : L.ok) (op : parseOption) (hd : op.delimiter ≠ [])
    (key : Str) (hk : flagKey L key) :
    transform L op (flagName op key) = flagName op key ∧
    mergedPath L op (flagName op key) = split op.delimiter key := by
  have hmem : ∀ c ∈ flagName op key, c ∈ key ∨ c = '-' := by
    intro c hc
    simp only [flagName, replaceAll, hd, if_false] at hc
    rcases mem_replaceFrom _ _ _ _ _ hc with h | h
    · exact Or.inl h
    · right; simpa using h
  have hno : '_' ∉ flagName op key := by
    intro h
    rcases hmem _ h with h1 | h1
    · exact (hk _ h1).2.1 rfl
    · exact absurd h1 (by decide)
  have hlow : ∀ c ∈ flagName op key, L.lower c = c := by
    intro c hc
    rcases hmem _ hc with h1 | h1
    · exact (hk _ h1).1
    · subst h1; exact Lib.lower_hyphen hL
  have htr : transform L op (flagName op key) = flagName op key := by
    simp only [transform]
    have : ("_".toList : Str) = ['_'] := rfl
    rw [this, replaceAll_absent _ _ _ hno]
    exact map_id_of_forall _ _ hlow
  refine ⟨htr, ?_⟩
  simp only [mergedPath, htr]
  have h2 : ("-".toList : Str) = ['-'] := rfl
  rw [h2]
  exact split_replaceAll op.delimiter hd '-' key (fun h => (hk _ h).2.2 rfl)

/-- The merged mapping shows the flag of a flag-safe key under that key. -/
theorem mergedKey_flagName (L : Lib) (hL : L.ok) (op : parseOption) (hd : op.delimiter ≠ [])
    (key : Str) (hk : flagKey L key) : mergedKey L op (flagName op key) = key := by
  simp only [mergedKey, (mergedPath_flagName L hL op hd key hk).2]
  exact join_split _ _ hd

/-- The load-path key transform undoes the marshal key transform on an
environment-safe key. -/
theorem f_Marshal_transform (L : Lib) (hL : L.ok) (op : parseOption)
    (hd : op.delimiter ≠ []) (hdl : toLower L op.delimiter = op.delimiter) (key : Str)
    (hk : envKey L key) : f L op (Marshal.transform L op key) = key := by
  have h1 : ("_".toList : Str) = ['_'] := rfl
  simp only [f, Marshal.transform, trimPrefix_append, transform, h1, replaceAll_single]
  simp only [replaceAll, hd, if_false, toUpper, toLower, List.flatMap_map, List.map_flatMap]
  apply replaceFrom_inverse op.delimiter hd '_' _ _ key.length key (le_refl _)
  · intro c hc
    obtain ⟨a, _, b⟩ := hk _ hc
    simp [b, a]
  · simpa [Lib.upper_underscore hL, toLower] using hdl

/-! ## Flat maps -/

theorem get_append (a b : FlatMap) (key : Str) :
    FlatMap.get (a ++ b) key = (FlatMap.get a key).or (FlatMap.get b key) := by
  induction a with
  | nil => simp [FlatMap.get]
  | cons e t ih =>
    obtain ⟨k, v⟩ := e
    by_cases h : k = key
    · simp [FlatMap.get, h]
    · simp [FlatMap.get, h, ih]

theorem get_filter_ne (m : FlatMap) (key key2 : Str) :
    FlatMap.get (m.filter (fun e => !decide (e.1 = key))) key2
      = if key = key2 then none else FlatMap.get m key2 := by
  induction m with
  | nil => simp [FlatMap.get]
  | cons e t ih =>
    obtain ⟨k, v⟩ := e
    by_cases h : k = key
    · subst h
      by_cases h2 : k = key2
      · subst h2; simpa using ih
      · simp [FlatMap.get, h2, ih]
    · by_cases h2 : k = key2
      · subst h2
        simp [List.filter_cons, h, FlatMap.get, Ne.symm h]
      · simp [List.filter_cons, h, FlatMap.get, h2, ih]

theorem get_set (m : FlatMap) (key : Str) (v : Value) (key2 : Str) :
    (FlatMap.set m key v).get key2 = if key = key2 then some v else m.get key2 := by
  by_cases h : key = key2
  · simp [FlatMap.set, FlatMap.get, h]
  · simp [FlatMap.set, FlatMap.get, h, get_filter_ne]

/-- A key read after a load is the last write of the loaded map if there is
one, and the previous value otherwise. -/
theorem get_load (dst src : FlatMap) (key : Str) :
    (load dst src).get key = (FlatMap.get src.reverse key).or (dst.get key) := by
  induction src generalizing dst with
  | nil => simp [load, FlatMap.get]
  | cons e t ih =>
    have : load dst (e :: t) = load (FlatMap.set dst e.1 e.2) t := by simp [load]
    rw [this, ih, List.reverse_cons, get_append, get_set]
    cases FlatMap.get t.reverse key with
    | some w => simp
    | none =>
      by_cases h : e.1 = key
      · simp [FlatMap.get, h]
      · simp [FlatMap.get, h]

theorem get_eq_none (m : FlatMap) (key : Str) (h : ∀ e ∈ m, e.1 ≠ key) :
    FlatMap.get m key = none := by
  induction m with
  | nil => rfl
  | cons e t ih =>
    obtain ⟨k, v⟩ := e
    have hk : k ≠ key := h (k, v) (List.mem_cons_self _ _)
    simp [FlatMap.get, hk, ih (fun e he => h e (List.mem_cons_of_mem _ he))]

theorem get_eq_some (m : FlatMap) (key : Str) (v : Value) (hex : ∃ e ∈ m, e.1 = key)
    (hall : ∀ e ∈ m, e.1 = key → e.2 = v) : FlatMap.get m key = some v := by
  induction m with
  | nil => obtain ⟨e, he, _⟩ := hex; simp at he
  | cons e t ih =>
    obtain ⟨k, w⟩ := e
    by_cases hk : k = key
    · have : w = v := hall (k, w) (List.mem_cons_self _ _) hk
      simp [FlatMap.get, hk, this]
    · simp only [FlatMap.get, hk, if_false]
      apply ih
      · obtain ⟨e, he, hek⟩ := hex
        rcases List.mem_cons.mp he with h1 | h1
        · subst h1; exact absurd hek hk
        · exact ⟨e, h1, hek⟩
      · exact fun e he => hall e (List.mem_cons_of_mem _ he)

theorem get_some_mem (m : FlatMap) (key : Str) (v : Value) (h : FlatMap.get m key = some v) :
    (key, v) ∈ m := by
  induction m with
  | nil => simp [FlatMap.get] at h
  | cons e t ih =>
    obtain ⟨k, w⟩ := e
    by_cases hk : k = key
    · simp only [FlatMap.get, hk, if_true, Option.some.injEq] at h
      subst hk; subst h; exact List.mem_cons_self _ _
    · simp only [FlatMap.get, hk, if_false] at h
      exact List.mem_cons_of_mem _ (ih h)

theorem mem_load (dst src : FlatMap) (e : Str × Value) (h : e ∈ load dst src) :
    e ∈ dst ∨ e ∈ src := by
  induction src generalizing dst with
  | nil => exact Or.inl h
  | cons a t ih =>
    have : load dst (a :: t) = load (FlatMap.set dst a.1 a.2) t := by simp [load]
    rw [this] at h
    rcases ih _ h with h1 | h1
    · simp only [FlatMap.set, List.mem_cons, List.mem_filter] at h1
      rcases h1 with h2 | h2
      · right; rw [h2]; exact List.mem_cons_self _ _
      · exact Or.inl h2.1
    · exact Or.inr (List.mem_cons_of_mem _ h1)

/-- A key written by the loaded map is present after the load, with one of
the loaded values. -/
theorem load_has_key (dst src : FlatMap) (key : Str) (hex : ∃ e ∈ src, e.1 = key) :
    ∃ v, (key, v) ∈ load dst src ∧ (key, v) ∈ src := by
  have hne : FlatMap.get src.reverse key ≠ none := by
    intro hn
    obtain ⟨e, he, hek⟩ := hex
    have : ∀ v, (key, v) ∉ src.reverse := by
      intro v hv
      have hm : ∀ (m : FlatMap), (key, v) ∈ m → FlatMap.get m key ≠ none := by
        intro m
        induction m with
        | nil => intro h; simp at h
        | cons a t ih =>
          intro h
          obtain ⟨k, w⟩ := a
          by_cases hk : k = key
          · simp [FlatMap.get, hk]
          · simp only [FlatMap.get, hk, if_false]
            rcases List.mem_cons.mp h with h1 | h1
            · exact absurd (Prod.mk.inj h1).1.symm hk
            · exact ih h1
      exact hm _ hv hn
    apply this e.2
    rw [List.mem_reverse, ← hek]
    exact he
  obtain ⟨v, hv⟩ := Option.ne_none_iff_exists'.mp hne
  refine ⟨v, ?_, ?_⟩
  · apply get_some_mem
    rw [get_load, hv]; rfl
  · exact List.mem_reverse.mp (get_some_mem _ _ _ hv)

/-! ## Built maps -/

theorem build_get (w : FlatMap) (key : Str) (v : Value) (hex : ∃ e ∈ w, e.1 = key)
    (hall : ∀ e ∈ w, e.1 = key → e.2 = v) : (load [] w).get key = some v := by
  rw [get_load]
  have : FlatMap.get w.reverse key = some v := by
    apply get_eq_some
    · obtain ⟨e, he, hek⟩ := hex
      exact ⟨e, List.mem_reverse.mpr he, hek⟩
    · exact fun e he => hall e (List.mem_reverse.mp he)
  rw [this]; rfl

theorem build_get_none (w : FlatMap) (key : Str) (h : ∀ e ∈ w, e.1 ≠ key) :
    (load [] w).get key = none := by
  rw [get_load, get_eq_none _ _ (fun e he => h e (List.mem_reverse.mp he))]
  rfl

theorem mem_build (w : FlatMap) (e : Str × Value) (h : e ∈ load [] w) : e ∈ w := by
  rcases mem_load _ _ _ h with h1 | h1
  · simp at h1
  · exact h1

/-! ## Nested maps -/

theorem related_self (p : Path) : related p p = true := by
  simp [related, List.isPrefixOf_iff_prefix]

theorem related_comm (p q : Path) : related p q = related q p := by
  simp [related, Bool.or_comm]

theorem mem_put (c : Conf) (p : Path) (v : Value) (e : Path × Value) :
    e ∈ Conf.put c p v ↔ e = (p, v) ∨ (e ∈ c ∧ related p e.1 = false) := by
  simp [Conf.put, List.mem_filter]

theorem merge_cons (s : Path × Value) (rest dst : Conf) :
    merge (s :: rest) dst = merge rest (Conf.put dst s.1 s.2) := by
  simp [merge]

theorem mem_merge_elim (src dst : Conf) (e : Path × Value) (h : e ∈ merge src dst) :
    e ∈ src ∨ (e ∈ dst ∧ ∀ s ∈ src, related s.1 e.1 = false) := by
  induction src generalizing dst with
  | nil => exact Or.inr ⟨h, by simp⟩
  | cons s rest ih =>
    rw [merge_cons] at h
    rcases ih _ h with h1 | ⟨h1, h2⟩
    · exact Or.inl (List.mem_cons_of_mem _ h1)
    · rcases (mem_put _ _ _ _).mp h1 with h3 | ⟨h3, h4⟩
      · left; rw [h3]; exact List.mem_cons_self _ _
      · right
        refine ⟨h3, ?_⟩
        intro s' hs'
        rcases List.mem_cons.mp hs' with h5 | h5
        · rw [h5]; exact h4
        · exact h2 s' h5

theorem mem_merge_dst (src dst : Conf) (e : Path × Value) (he : e ∈ dst)
    (h : ∀ s ∈ src, related s.1 e.1 = false) : e ∈ merge src dst := by
  induction src generalizing dst with
  | nil => exact he
  | cons s rest ih =>
    rw [merge_cons]
    apply ih
    · exact (mem_put _ _ _ _).mpr (Or.inr ⟨he, h s (List.mem_cons_self _ _)⟩)
    · exact fun s' hs' => h s' (List.mem_cons_of_mem _ hs')

theorem mem_merge_src (src dst : Conf) (p : Path) (v : Value) (he : (p, v) ∈ src)
    (h : ∀ s ∈ src, related s.1 p = true → s = (p, v)) : (p, v) ∈ merge src dst := by
  induction src generalizing dst with
  | nil => simp at he
  | cons s rest ih =>
    rw [merge_cons]
    by_cases hr : (p, v) ∈ rest
    · exact ih _ hr (fun s' hs' => h s' (List.mem_cons_of_mem _ hs'))
    · have hs : s = (p, v) := by
        rcases List.mem_cons.mp he with h1 | h1
        · exact h1.symm
        · exact absurd h1 hr
      apply mem_merge_dst
      · rw [hs]; exact (mem_put _ _ _ _).mpr (Or.inl rfl)
      · intro s' hs'
        cases hrel : related s'.1 p with
        | false => rfl
        | true =>
          have := h s' (List.mem_cons_of_mem _ hs') hrel
          rw [this] at hs'
          exact absurd hs' hr

/-- A merge that leaves a flat key alone does not change the leaves under
it. -/
theorem merge_untouched (delim : Str) (src dst : Conf) (key : Str)
    (h : leavesAlone delim src dst key) (e : Path × Value) (hek : join delim e.1 = key) :
    e ∈ merge src dst ↔ e ∈ dst := by
  constructor
  · intro he
    rcases mem_merge_elim _ _ _ he with h1 | ⟨h1, _⟩
    · exact absurd hek (h e h1).1
    · exact h1
  · intro he
    apply mem_merge_dst _ _ _ he
    intro s hs
    exact (h s hs).2 e he hek

/-! ## `maps.Flatten` -/

theorem mem_flatten (L : Lib) (hL : L.ok) (delim : Str) (c : Conf) (e : Str × Value)
    (h : e ∈ flatten L delim c) : ∃ x ∈ c, e = (join delim x.1, x.2) := by
  have := mem_build _ _ h
  simp only [List.mem_map] at this
  obtain ⟨x, hx, rfl⟩ := this
  exact ⟨x, (Lib.mem_order hL _ _).mp hx, rfl⟩

/-- A flat key under which every leaf holds the same value reads as that
value, whatever the iteration order. -/
theorem flatten_get (L : Lib) (hL : L.ok) (delim : Str) (c : Conf) (key : Str) (v : Value)
    (hex : ∃ x ∈ c, join delim x.1 = key) (hall : ∀ x ∈ c, join delim x.1 = key → x.2 = v) :
    (flatten L delim c).get key = some v := by
  apply build_get
  · obtain ⟨x, hx, hk⟩ := hex
    exact ⟨(join delim x.1, x.2), List.mem_map.mpr ⟨x, (Lib.mem_order hL _ _).mpr hx, rfl⟩, hk⟩
  · intro e he hek
    simp only [List.mem_map] at he
    obtain ⟨x, hx, rfl⟩ := he
    exact hall x ((Lib.mem_order hL _ _).mp hx) hek

theorem flatten_get_none (L : Lib) (hL : L.ok) (delim : Str) (c : Conf) (key : Str)
    (h : ∀ x ∈ c, join delim x.1 ≠ key) : (flatten L delim c).get key = none := by
  apply build_get_none
  intro e he
  simp only [List.mem_map] at he
  obtain ⟨x, hx, rfl⟩ := he
  exact h x ((Lib.mem_order hL _ _).mp hx)

/-! ## `maps.Unflatten` -/

theorem descend_eq (c : Conf) (pre : Path) (rest : List Str)
    (h : ∀ e ∈ c, ∀ q, q <+: rest → q ≠ [] → e.1 ≠ pre ++ q) :
    descend c pre rest = pre ++ rest := by
  induction rest generalizing pre with
  | nil => simp [descend]
  | cons part r ih =>
    have hno : c.any (fun e => decide (e.1 = pre ++ [part])) = false := by
      rw [List.any_eq_false]
      intro e he
      simp only [decide_eq_true_eq]
      exact h e he [part] (by simp [List.prefix_cons_inj, List.nil_prefix]) (by simp)
    simp only [descend, hno, Bool.false_eq_true, if_false]
    rw [ih]
    · simp
    · intro e he q hq hqne
      have := h e he (part :: q) (by simpa [List.prefix_cons_inj] using hq) (by simp)
      simpa using this

theorem dropLast_append_getLastD (l : List Str) (h : l ≠ []) :
    l.dropLast ++ [l.getLastD []] = l := by
  rcases List.eq_nil_or_concat l with h1 | ⟨init, x, h1⟩
  · exact absurd h1 h
  · subst h1
    simp

theorem mem_foldl_unflattenOne (delim : Str) (hd : delim ≠ []) :
    ∀ (l : FlatMap), cleanKeys delim l → ∀ (e : Path × Value),
      e ∈ l.foldl (unflattenOne delim) [] ↔ ∃ a ∈ l, e = (split delim a.1, a.2) := by
  intro l
  induction l using List.reverseRecOn with
  | nil =>
    intro _ e
    constructor
    · intro h; exact absurd h (List.not_mem_nil _)
    · rintro ⟨a, ha, _⟩; exact absurd ha (List.not_mem_nil _)
  | append_singleton l a ih =>
    intro hclean e
    have hcl : cleanKeys delim l :=
      fun x hx y hy hr => hclean x (List.mem_append_left _ hx) y (List.mem_append_left _ hy) hr
    have ih := ih hcl
    rw [List.foldl_append]
    simp only [List.foldl_cons, List.foldl_nil, unflattenOne]
    have ha : a ∈ l ++ [a] := List.mem_append_right _ (List.mem_singleton.mpr rfl)
    have hdesc : descend (l.foldl (unflattenOne delim) []) [] (split delim a.1).dropLast
        = (split delim a.1).dropLast := by
      rw [descend_eq]
      · simp
      · intro x hx q hq _ heq
        obtain ⟨b, hb, rfl⟩ := (ih x).mp hx
        simp only [List.nil_append] at heq
        have hpre : split delim b.1 <+: split delim a.1 := by
          rw [heq]
          exact hq.trans (List.dropLast_prefix _)
        have hrel : related (split delim b.1) (split delim a.1) = true := by
          simp [related, List.isPrefixOf_iff_prefix, hpre]
        have hba : b = a := hclean b (List.mem_append_left _ hb) a ha hrel
        rw [hba] at heq
        have hlen := hq.length_le
        rw [← heq, List.length_dropLast] at hlen
        have : (split delim a.1).length ≠ 0 := by
          simpa using split_ne_nil delim a.1 hd
        omega
    rw [hdesc, dropLast_append_getLastD _ (split_ne_nil delim a.1 hd)]
    simp only [assign]
    constructor
    · intro h
      rcases List.mem_cons.mp h with h1 | h1
      · exact ⟨a, ha, h1⟩
      · obtain ⟨b, hb, hbe⟩ := (ih e).mp (List.mem_filter.mp h1).1
        exact ⟨b, List.mem_append_left _ hb, hbe⟩
    · rintro ⟨b, hb, rfl⟩
      rcases List.mem_append.mp hb with hb | hb
      · by_cases hp : (split delim a.1).isPrefixOf (split delim b.1) = true
        · have hrel : related (split delim b.1) (split delim a.1) = true := by
            simp [related, hp]
          have hba : b = a := hclean b (List.mem_append_left _ hb) a ha hrel
          rw [hba]; exact List.mem_cons_self _ _
        · apply List.mem_cons_of_mem
          apply List.mem_filter.mpr
          refine ⟨(ih _).mpr ⟨b, hb, rfl⟩, ?_⟩
          simp only [Bool.not_eq_true] at hp
          simp [hp]
      · rw [List.mem_singleton.mp hb]; exact List.mem_cons_self _ _

/-- With keys that do not lie above or below one another, the nested map
holds every flat entry at the split of its key. -/
theorem mem_unflatten (L : Lib) (hL : L.ok) (delim : Str) (hd : delim ≠ []) (m : FlatMap)
    (hclean : cleanKeys delim m) (e : Path × Value) :
    e ∈ unflatten L delim m ↔ ∃ a ∈ m, e = (split delim a.1, a.2) := by
  simp only [unflatten, hd, if_false]
  have hcl : cleanKeys delim (L.order _ m) :=
    fun x hx y hy hr => hclean x ((Lib.mem_order hL _ _).mp hx) y ((Lib.mem_order hL _ _).mp hy) hr
  rw [mem_foldl_unflattenOne delim hd _ hcl e]
  constructor
  · rintro ⟨a, ha, rfl⟩; exact ⟨a, (Lib.mem_order hL _ _).mp ha, rfl⟩
  · rintro ⟨a, ha, rfl⟩; exact ⟨a, (Lib.mem_order hL _ _).mpr ha, rfl⟩

/-! ## Loading a map into an instance -/

/-- A leaf that the merged map holds alone at, above and below its path, and
that agrees with every other leaf under its flat key, decides the flat key
after the merge, provided the target holds the key only at related paths or
with the same value. -/
theorem loaded_at (delim : Str) (src dst : Conf) (p : Path) (v : Value) (key : Str)
    (hp : (p, v) ∈ src)
    (hsrc : ∀ s ∈ src, related s.1 p = true → s = (p, v))
    (hjoin : ∀ s ∈ src, join delim s.1 = key → s.2 = v)
    (hdst : ∀ e ∈ dst, join delim e.1 = key → e.2 = v ∨ related p e.1 = true) :
    (p, v) ∈ merge src dst ∧ ∀ e ∈ merge src dst, join delim e.1 = key → e.2 = v := by
  refine ⟨mem_merge_src _ _ _ _ hp hsrc, ?_⟩
  intro e he hek
  rcases mem_merge_elim _ _ _ he with h1 | ⟨h1, h2⟩
  · exact hjoin e h1 hek
  · rcases hdst e h1 hek with h3 | h3
    · exact h3
    · have := h2 (p, v) hp
      simp only at this
      rw [this] at h3
      exact absurd h3 (by simp)

/-- Loading a map with clean keys that sets a key puts the value at the
path of the key, and the instance then shows the key only there and only
with that value. -/
theorem loaded_own (L : Lib) (hL : L.ok) (delim : Str) (hd : delim ≠ []) (m : FlatMap)
    (hclean : cleanKeys delim m) (key : Str) (v : Value) (hin : (key, v) ∈ m)
    (huniq : ∀ e ∈ m, e.1 = key → e.2 = v) (dst : Conf) (hown : ownPath delim dst key) :
    (split delim key, v) ∈ merge (unflatten L delim m) dst ∧
    (∀ e ∈ merge (unflatten L delim m) dst, join delim e.1 = key → e.2 = v) ∧
    ownPath delim (merge (unflatten L delim m) dst) key := by
  have hmem := mem_unflatten L hL delim hd m hclean
  have h1 := loaded_at delim (unflatten L delim m) dst (split delim key) v key
    ((hmem _).mpr ⟨(key, v), hin, rfl⟩)
    (by
      intro s hs hrel
      obtain ⟨b, hb, rfl⟩ := (hmem s).mp hs
      have : b = (key, v) := hclean b hb (key, v) hin hrel
      rw [this])
    (by
      intro s hs hj
      obtain ⟨b, hb, rfl⟩ := (hmem s).mp hs
      simp only [join_split _ _ hd] at hj
      exact huniq b hb hj)
    (by
      intro e he hj
      right
      rw [hown e he hj]
      exact related_self _)
  refine ⟨h1.1, h1.2, ?_⟩
  intro e he hj
  rcases mem_merge_elim _ _ _ he with h2 | ⟨h2, _⟩
  · obtain ⟨b, hb, rfl⟩ := (hmem e).mp h2
    simp only [join_split _ _ hd] at hj
    simp only [hj]
  · exact hown e h2 hj

/-- Loading a map with clean keys keeps a key at its own path. -/
theorem ownPath_merge (L : Lib) (hL : L.ok) (delim : Str) (hd : delim ≠ []) (m : FlatMap)
    (hclean : cleanKeys delim m) (key : Str) (dst : Conf) (hown : ownPath delim dst key) :
    ownPath delim (merge (unflatten L delim m) dst) key := by
  intro e he hj
  rcases mem_merge_elim _ _ _ he with h2 | ⟨h2, _⟩
  · obtain ⟨b, hb, rfl⟩ := (mem_unflatten L hL delim hd m hclean e).mp h2
    simp only [join_split _ _ hd] at hj
    simp only [hj]
  · exact hown e h2 hj

/-- A key that a built map sets, with one value for all its writes, is in
the map with that value. -/
theorem build_mem (w : FlatMap) (key : Str) (v : Value) (hex : ∃ e ∈ w, e.1 = key)
    (hall : ∀ e ∈ w, e.1 = key → e.2 = v) :
    (key, v) ∈ load [] w ∧ ∀ e ∈ load [] w, e.1 = key → e.2 = v :=
  ⟨get_some_mem _ _ _ (build_get w key v hex hall),
   fun e he hek => hall e (mem_build _ _ he) hek⟩

/-! ## Decoding -/

/-- A field whose `koanf` key reads as a value in the flattened instance is
decoded from that value. -/
theorem unmarshal_field (L : Lib) (op : parseOption) (c : Conf) (config : Config)
    (key : Str) (v w : Value) (hm : (flatten L op.delimiter c).get key = some v)
    (fld : Field) (hf : fld ∈ config) (hkey : fld.tag "koanf".toList = key)
    (hdec : decodeValue key fld.kind fld.value v = Except.ok w) :
    { fld with value := w } ∈ (unmarshal L op c config).1 := by
  simp only [unmarshal, List.map_map, List.mem_map, Function.comp]
  refine ⟨fld, hf, ?_⟩
  simp only [decodeField, fieldSource, hkey, hm, hdec]

/-! ## Shape of an invocation -/

/-- Outcome once the arguments parse, help is not requested and the
file-resolution loop ends normally. -/
theorem parse_merged (L : Lib) (op : parseOption) (validate : Validator) (env : Env)
    (args : List Str) (files : Files) (k : Conf) (fs : FlagSet) (config : Config)
    (hparse : (fs.Parse args).2 = none)
    (hhelp : koanfBool L op.delimiter (flagsOnly L op fs args) op.helpFlag = some false)
    (hret : (resolved L op env args files k fs).ret = Ret.ok) :
    (parse L op validate env args files k fs config).k = merged L op env args files k fs ∧
    (parse L op validate env args files k fs config).config
      = (unmarshal L op (merged L op env args files k fs) config).1 ∧
    (parse L op validate env args files k fs config).read
      = (resolved L op env args files k fs).read ∧
    (parse L op validate env args files k fs config).ret
      = (match (unmarshal L op (merged L op env args files k fs) config).2 with
         | some e => Ret.err e
         | none => validateResult validate
             (unmarshal L op (merged L op env args files k fs) config).1) ∧
    (parse L op validate env args files k fs config).validates
      = (match (unmarshal L op (merged L op env args files k fs) config).2 with
         | some _ => 0
         | none => if validate.isSome then 1 else 0) := by
  simp only [merged, flagsConf, resolved, flagsOnly, withEnv] at *
  rcases hP : fs.Parse args with ⟨fs1, oe⟩
  rw [hP] at hparse hhelp hret
  simp only at hparse hhelp hret
  subst hparse
  simp only [parse, hP, hhelp, hret]
  cases hu : unmarshal L op (merge (confmapProvider L (flatten L op.delimiter
      (resolveFile L op files (koanfLoad L op [] (posflagProvider L op fs1))
        (koanfLoad L op k (envProvider L op env))).flagK))
      (resolveFile L op files (koanfLoad L op [] (posflagProvider L op fs1))
        (koanfLoad L op k (envProvider L op env))).k) config with
  | mk c1 e1 =>
    cases e1 with
    | some e => simp
    | none => cases validate <;> simp [validateResult]

/-- What the file-resolution loop did when it ended normally: it loaded the
map of one file into the flags-only instance, or into the working instance,
or it loaded nothing. -/
theorem resolveFile_cases (L : Lib) (op : parseOption) (files : Files) (flagK k : Conf)
    (hret : (resolveFile L op files flagK k).ret = Ret.ok) :
    (∃ p lines, files p = some lines ∧ (resolveFile L op files flagK k).read = [p] ∧
      (((resolveFile L op files flagK k).flagK
            = koanfLoad L op flagK (dotenvParserEnv L op lines) ∧
          (resolveFile L op files flagK k).k = k ∧
          koanfString L op.delimiter flagK op.configPathKey = some p ∧ p ≠ []) ∨
       ((resolveFile L op files flagK k).flagK = flagK ∧
          (resolveFile L op files flagK k).k
            = koanfLoad L op k (dotenvParserEnv L op lines) ∧
          koanfString L op.delimiter flagK op.configPathKey = some [] ∧
          koanfString L op.delimiter k op.configPathKey = some p ∧ p ≠ []))) ∨
    ((resolveFile L op files flagK k).flagK = flagK ∧ (resolveFile L op files flagK k).k = k ∧
      (resolveFile L op files flagK k).read = [] ∧
      koanfString L op.delimiter flagK op.configPathKey = some [] ∧
      koanfString L op.delimiter k op.configPathKey = some []) := by
  unfold resolveFile at hret ⊢
  unfold tryLoad at hret ⊢
  cases h1 : koanfString L op.delimiter flagK op.configPathKey with
  | none => simp [h1] at hret
  | some p1 =>
    by_cases hp1 : p1 = []
    · subst hp1
      simp only [h1, if_true] at hret ⊢
      cases h2 : koanfString L op.delimiter k op.configPathKey with
      | none => simp [h2] at hret
      | some p2 =>
        by_cases hp2 : p2 = []
        · subst hp2
          right
          simp
        · simp only [h2, hp2, if_false] at hret ⊢
          cases hf : files p2 with
          | none => simp [hf] at hret
          | some lines =>
            left
            refine ⟨p2, lines, hf, ?_, Or.inr ⟨?_, ?_, ?_, ?_, hp2⟩⟩ <;> simp [hf]
    · simp only [h1, hp1, if_false] at hret ⊢
      cases hf : files p1 with
      | none => simp [hf] at hret
      | some lines =>
        left
        refine ⟨p1, lines, hf, ?_, Or.inl ⟨?_, ?_, ?_, hp1⟩⟩ <;> simp [hf]

/-! ## Provider maps -/

theorem mem_posflagProvider (L : Lib) (hL : L.ok) (op : parseOption) (fs : FlagSet)
    (a : Str × Value) (h : a ∈ posflagProvider L op fs) :
    ∃ g ∈ fs.flags, g.changed = true ∧ a = (transform L op g.name, Value.str g.value) := by
  have := mem_build _ _ h
  simp only [List.mem_filterMap] at this
  obtain ⟨g, hg, hge⟩ := this
  by_cases hc : g.changed = true
  · simp only [hc, if_true, Option.some.injEq] at hge
    exact ⟨g, (Lib.mem_order hL _ _).mp hg, hc, hge.symm⟩
  · simp [hc] at hge

theorem posflagProvider_mem (L : Lib) (hL : L.ok) (op : parseOption) (fs : FlagSet)
    (key : Str) (v : Str)
    (hex : ∃ g ∈ fs.flags, g.changed = true ∧ transform L op g.name = key)
    (hall : ∀ g ∈ fs.flags, g.changed = true → transform L op g.name = key → g.value = v) :
    (key, Value.str v) ∈ posflagProvider L op fs := by
  apply (build_mem _ key (Value.str v) _ _).1
  · obtain ⟨g, hg, hc, hk⟩ := hex
    refine ⟨(transform L op g.name, Value.str g.value), ?_, hk⟩
    simp only [List.mem_filterMap]
    exact ⟨g, (Lib.mem_order hL _ _).mpr hg, by simp [hc]⟩
  · intro e he hek
    simp only [List.mem_filterMap] at he
    obtain ⟨g, hg, hge⟩ := he
    by_cases hc : g.changed = true
    · simp only [hc, if_true, Option.some.injEq] at hge
      subst hge
      simp only [Value.str.injEq]
      exact hall g ((Lib.mem_order hL _ _).mp hg) hc hek
    · simp [hc] at hge

theorem envProvider_mem (L : Lib) (op : parseOption) (env : Env) (key ev : Str)
    (hne : key ≠ [])
    (hex : ∃ e ∈ env, hasPrefix e.1 op.envPrefix = true ∧ f L op e.1 = key)
    (hall : ∀ e ∈ env, hasPrefix e.1 op.envPrefix = true → f L op e.1 = key → e.2 = ev) :
    (key, Value.str ev) ∈ envProvider L op env ∧
    ∀ e ∈ envProvider L op env, e.1 = key → e.2 = Value.str ev := by
  apply build_mem
  · obtain ⟨e, he, hp, hf⟩ := hex
    refine ⟨(key, Value.str e.2), ?_, rfl⟩
    simp only [List.mem_filterMap]
    exact ⟨e, he, by simp [hp, hf, hne]⟩
  · intro e he hek
    simp only [List.mem_filterMap] at he
    obtain ⟨e0, he0, h⟩ := he
    by_cases hp : hasPrefix e0.1 op.envPrefix = true
    · by_cases hb : f L op e0.1 = []
      · simp [hp, hb] at h
      · simp only [hp, hb, if_true, if_false, Option.some.injEq] at h
        subst h
        simp only [Value.str.injEq]
        exact hall e0 he0 hp hek
    · simp [hp] at h

theorem dotenvParserEnv_mem (L : Lib) (hL : L.ok) (op : parseOption)
    (lines : List (Str × Str)) (key fv : Str)
    (hex : ∃ e ∈ lines, hasPrefix e.1 op.envPrefix = true ∧ f L op e.1 = key)
    (hall : ∀ e ∈ lines, hasPrefix e.1 op.envPrefix = true → f L op e.1 = key → e.2 = fv) :
    (key, Value.str fv) ∈ dotenvParserEnv L op lines ∧
    ∀ e ∈ dotenvParserEnv L op lines, e.1 = key → e.2 = Value.str fv := by
  apply build_mem
  · obtain ⟨e, he, hp, hf⟩ := hex
    refine ⟨(key, Value.str e.2), ?_, rfl⟩
    simp only [List.mem_filterMap]
    exact ⟨e, (Lib.mem_order hL _ _).mpr he, by simp [hp, hf]⟩
  · intro e he hek
    simp only [List.mem_filterMap] at he
    obtain ⟨e0, he0, h⟩ := he
    by_cases hp : hasPrefix e0.1 op.envPrefix = true
    · simp only [hp, if_true, Option.some.injEq] at h
      subst h
      simp only [Value.str.injEq]
      exact hall e0 ((Lib.mem_order hL _ _).mp he0) hp hek
    · simp [hp] at h

/-! ## The merge of the flags -/

theorem resolved_no_file (L : Lib) (op : parseOption) (env : Env) (args : List Str)
    (files : Files) (k : Conf) (fs : FlagSet)
    (hret : (resolved L op env args files k fs).ret = Ret.ok)
    (hread : (resolved L op env args files k fs).read = []) :
    (resolved L op env args files k fs).flagK = flagsOnly L op fs args ∧
    (resolved L op env args files k fs).k = withEnv L op env k := by
  rcases resolveFile_cases L op files _ _ hret with ⟨p, lines, _, hr, _⟩ | ⟨h1, h2, _⟩
  · simp only [resolved] at hread
    rw [hread] at hr
    simp at hr
  · exact ⟨h1, h2⟩

/-- Entries of `flagK.All()` when no file went into the flags-only instance:
the changed flags under their transformed names. -/
theorem mem_flagsAll (L : Lib) (hL : L.ok) (op : parseOption) (hd : op.delimiter ≠ [])
    (fs1 : FlagSet) (hclean : cleanKeys op.delimiter (posflagProvider L op fs1))
    (a : Str × Value)
    (h : a ∈ flatten L op.delimiter (koanfLoad L op [] (posflagProvider L op fs1))) :
    ∃ g ∈ fs1.flags, g.changed = true ∧ a = (transform L op g.name, Value.str g.value) := by
  obtain ⟨x, hx, rfl⟩ := mem_flatten L hL _ _ _ h
  rcases mem_merge_elim _ _ _ hx with h1 | ⟨h1, _⟩
  · obtain ⟨b, hb, rfl⟩ := (mem_unflatten L hL _ hd _ hclean x).mp h1
    simp only [join_split _ _ hd]
    exact mem_posflagProvider L hL op fs1 b hb
  · simp at h1

/-- The value the merge step leaves under the key of a given flag. -/
theorem merged_flag_value (L : Lib) (hL : L.ok) (op : parseOption) (hd : op.delimiter ≠ [])
    (fs1 : FlagSet) (k1 : Conf) (key fv : Str) (hk : flagKey L key)
    (hflag : ∃ g ∈ fs1.flags, g.changed = true ∧ g.name = flagName op key)
    (huniq : ∀ g ∈ fs1.flags, g.changed = true → mergedKey L op g.name = key → g.value = fv)
    (hc1 : cleanKeys op.delimiter (posflagProvider L op fs1))
    (hc2 : cleanKeys "-".toList
      (flatten L op.delimiter (koanfLoad L op [] (posflagProvider L op fs1))))
    (hown : ownPath op.delimiter k1 key) :
    (flatten L op.delimiter
      (merge (confmapProvider L
        (flatten L op.delimiter (koanfLoad L op [] (posflagProvider L op fs1)))) k1)).get key
      = some (Value.str fv) := by
  obtain ⟨htr, hpath⟩ := mergedPath_flagName L hL op hd key hk
  have hkey := mergedKey_flagName L hL op hd key hk
  have hdash : ("-".toList : Str) ≠ [] := by decide
  -- the flag's entry in the provider map
  have h1 : (flagName op key, Value.str fv) ∈ posflagProvider L op fs1 := by
    apply posflagProvider_mem L hL
    · obtain ⟨g, hg, hc, hn⟩ := hflag
      exact ⟨g, hg, hc, by rw [hn, htr]⟩
    · intro g hg hc hn
      apply huniq g hg hc
      simp only [mergedKey, mergedPath, hn]
      simpa [mergedKey, mergedPath, htr] using hkey
  have h1u : ∀ e ∈ posflagProvider L op fs1, e.1 = flagName op key → e.2 = Value.str fv := by
    intro e he hek
    obtain ⟨g, hg, hc, rfl⟩ := mem_posflagProvider L hL op fs1 e he
    simp only [Value.str.injEq]
    apply huniq g hg hc
    simp only at hek
    simp only [mergedKey, mergedPath, hek]
    simpa [mergedKey, mergedPath, htr] using hkey
  -- its entry in the flags-only instance and in `flagK.All()`
  obtain ⟨h2, h2u, _⟩ := loaded_own L hL op.delimiter hd _ hc1 (flagName op key)
    (Value.str fv) h1 h1u [] (by intro e he; simp at he)
  have h3 : (flagName op key, Value.str fv)
      ∈ flatten L op.delimiter (koanfLoad L op [] (posflagProvider L op fs1)) := by
    apply get_some_mem
    apply flatten_get L hL
    · exact ⟨_, h2, join_split _ _ hd⟩
    · exact h2u
  -- the merge into the working instance
  have hmem := mem_unflatten L hL "-".toList hdash _ hc2
  have h4 := loaded_at op.delimiter
    (confmapProvider L (flatten L op.delimiter (koanfLoad L op [] (posflagProvider L op fs1))))
    k1 (split "-".toList (flagName op key)) (Value.str fv) key
    ((hmem _).mpr ⟨_, h3, rfl⟩)
    (by
      intro s hs hrel
      obtain ⟨b, hb, rfl⟩ := (hmem s).mp hs
      have := hc2 b hb _ h3 hrel
      rw [this])
    (by
      intro s hs hj
      obtain ⟨b, hb, rfl⟩ := (hmem s).mp hs
      obtain ⟨g, hg, hc, rfl⟩ := mem_flagsAll L hL op hd fs1 hc1 b hb
      simp only [Value.str.injEq]
      exact huniq g hg hc hj)
    (by
      intro e he hj
      right
      rw [hown e he hj]
      have : split "-".toList (flagName op key) = split op.delimiter key := by
        simpa [mergedPath, htr] using hpath
      rw [this]
      exact related_self _)
  apply flatten_get L hL
  · refine ⟨_, h4.1, ?_⟩
    simpa [mergedKey, mergedPath, htr] using hkey
  · exact h4.2

/-! ## Precedence of flags over the environment -/

/-- C1 (amended): let the runtime be any that acts on ASCII as Go does, the
delimiter be non-empty, the arguments parse, help be not requested, and the
file-resolution loop end normally without reading a file.  (a) For every key
without `_`, `-` or a character changed by lower-casing whose flag is given
on the command line: if every given flag merged under the key carries the
value `fv`, the flags-only keys do not lie above or below one another, and
the environment map and the captured instance hold the key only at its own
path, then the merged mapping reads `fv` under the key, whatever the
environment holds for it, and every destination field tagged with the key
holds what the decoder makes of `fv` for its type.  (b) For every non-empty
key that survives the environment naming and is set by its prefixed
environment variable, with a delimiter unchanged by lower-casing: if no
other variable gives the key another value, the environment keys do not lie
above or below one another, the captured instance holds the key only at its
own path and the merged flags leave the key alone, then the merged mapping
reads the environment value and the destination fields hold what the
decoder makes of it. -/
theorem flags_beat_env (L : Lib) (hL : L.ok) (op : parseOption) (validate : Validator)
    (env : Env) (args : List Str) (files : Files) (k : Conf) (fs : FlagSet) (config : Config)
    (hd : op.delimiter ≠ [])
    (hparse : (fs.Parse args).2 = none)
    (hhelp : koanfBool L op.delimiter (flagsOnly L op fs args) op.helpFlag = some false)
    (hret : (resolved L op env args files k fs).ret = Ret.ok)
    (hread : (resolved L op env args files k fs).read = []) :
    (∀ key fv : Str, flagKey L key →
      (∃ g ∈ (fs.Parse args).1.flags, g.changed = true ∧ g.name = flagName op key) →
      (∀ g ∈ (fs.Parse args).1.flags, g.changed = true → mergedKey L op g.name = key →
        g.value = fv) →
      cleanKeys op.delimiter (posflagProvider L op (fs.Parse args).1) →
      cleanKeys "-".toList (flatten L op.delimiter (flagsOnly L op fs args)) →
      cleanKeys op.delimiter (envProvider L op env) →
      ownPath op.delimiter k key →
      (flatten L op.delimiter (parse L op validate env args files k fs config).k).get key
          = some (Value.str fv) ∧
        ∀ fld ∈ config, fld.tag "koanf".toList = key →
          ∀ w, decodeValue key fld.kind fld.value (Value.str fv) = Except.ok w →
            { fld with value := w } ∈ (parse L op validate env args files k fs config).config) ∧
    (∀ key ev : Str, envKey L key → key ≠ [] → toLower L op.delimiter = op.delimiter →
      (Marshal.transform L op key, ev) ∈ env →
      (∀ e ∈ env, hasPrefix e.1 op.envPrefix = true → f L op e.1 = key → e.2 = ev) →
      cleanKeys op.delimiter (envProvider L op env) →
      ownPath op.delimiter k key →
      leavesAlone op.delimiter (flagsConf L op env args files k fs) (withEnv L op env k) key →
      (flatten L op.delimiter (parse L op validate env args files k fs config).k).get key
          = some (Value.str ev) ∧
        ∀ fld ∈ config, fld.tag "koanf".toList = key →
          ∀ w, decodeValue key fld.kind fld.value (Value.str ev) = Except.ok w →
            { fld with value := w } ∈ (parse L op validate env args files k fs config).config) := by
  obtain ⟨hk_eq, hc_eq, _, _, _⟩ :=
    parse_merged L op validate env args files k fs config hparse hhelp hret
  obtain ⟨hfk, hrk⟩ := resolved_no_file L op env args files k fs hret hread
  have hm : merged L op env args files k fs
      = merge (confmapProvider L (flatten L op.delimiter (flagsOnly L op fs args)))
          (withEnv L op env k) := by
    simp only [merged, flagsConf, hfk, hrk]
  constructor
  · intro key fv hkey hflag huniq hc1 hc2 hce hown
    have hown1 : ownPath op.delimiter (withEnv L op env k) key :=
      ownPath_merge L hL _ hd _ hce key k hown
    have hv := merged_flag_value L hL op hd (fs.Parse args).1 (withEnv L op env k) key fv hkey
      hflag huniq hc1 hc2 hown1
    have hv2 : (flatten L op.delimiter (merged L op env args files k fs)).get key
        = some (Value.str fv) := by
      rw [hm]; exact hv
    rw [hk_eq, hc_eq]
    exact ⟨hv2, fun fld hf hkeq w hw => unmarshal_field L op _ config key _ w hv2 fld hf hkeq hw⟩
  · intro key ev hkey hne hdl henv henvu hce hown hleave
    obtain ⟨he1, he2⟩ := envProvider_mem L op env key ev hne
      ⟨_, henv, hasPrefix_append _ _, f_Marshal_transform L hL op hd hdl key hkey⟩ henvu
    obtain ⟨h1, h2, _⟩ := loaded_own L hL op.delimiter hd _ hce key (Value.str ev) he1 he2 k hown
    have hfc : flagsConf L op env args files k fs
        = confmapProvider L (flatten L op.delimiter (flagsOnly L op fs args)) := by
      simp only [flagsConf, hfk]
    have hv2 : (flatten L op.delimiter (merged L op env args files k fs)).get key
        = some (Value.str ev) := by
      rw [hm, ← hfc]
      apply flatten_get L hL
      · exact ⟨_, (merge_untouched _ _ _ key hleave _ (join_split _ _ hd)).mpr h1,
          join_split _ _ hd⟩
      · intro x hx hxk
        exact h2 x ((merge_untouched _ _ _ key hleave x hxk).mp hx) hxk
    rw [hk_eq, hc_eq]
    exact ⟨hv2, fun fld hf hkeq w hw => unmarshal_field L op _ config key _ w hv2 fld hf hkeq hw⟩

set_option maxRecDepth 100000 in
theorem flags_beat_env_witness :
    (RegisterFlags asciiLib exampleConfig ⟨[], false⟩ []
        = some ⟨defaultOption, exampleK, exampleFlags⟩ ∧
     (parse asciiLib defaultOption none specEnv specArgs noFiles exampleK exampleFlags
        exampleConfig).view
       = (Ret.ok, [stringField "ClientId" "client.id" "abc",
                   stringField "ClientSecret" "client.secret" "xyz"], []) ∧
     (parse asciiLib defaultOption none specEnv specArgsOverride noFiles exampleK exampleFlags
        exampleConfig).view
       = (Ret.ok, [stringField "ClientId" "client.id" "override",
                   stringField "ClientSecret" "client.secret" "xyz"], [])) ∧
    ((flatten asciiLib defaultOption.delimiter
        (parse asciiLib defaultOption none specEnv specArgs noFiles exampleK exampleFlags
          exampleConfig).k).get "client.secret".toList = some (Value.str "xyz".toList) ∧
      ∀ fld ∈ exampleConfig, fld.tag "koanf".toList = "client.secret".toList →
        ∀ w, decodeValue "client.secret".toList fld.kind fld.value (Value.str "xyz".toList)
            = Except.ok w →
          { fld with value := w } ∈
            (parse asciiLib defaultOption none specEnv specArgs noFiles exampleK exampleFlags
              exampleConfig).config) ∧
    ((flatten asciiLib defaultOption.delimiter
        (parse asciiLib defaultOption none specEnv specArgs noFiles exampleK exampleFlags
          exampleConfig).k).get "client.id".toList = some (Value.str "abc".toList) ∧
      ∀ fld ∈ exampleConfig, fld.tag "koanf".toList = "client.id".toList →
        ∀ w, decodeValue "client.id".toList fld.kind fld.value (Value.str "abc".toList)
            = Except.ok w →
          { fld with value := w } ∈
            (parse asciiLib defaultOption none specEnv specArgs noFiles exampleK exampleFlags
              exampleConfig).config) ∧
    ((flatten asciiLib defaultOption.delimiter
        (parse asciiLib defaultOption none specEnv specArgsOverride noFiles exampleK
          exampleFlags exampleConfig).k).get "client.id".toList
          = some (Value.str "override".toList) ∧
      ∀ fld ∈ exampleConfig, fld.tag "koanf".toList = "client.id".toList →
        ∀ w, decodeValue "client.id".toList fld.kind fld.value (Value.str "override".toList)
            = Except.ok w →
          { fld with value := w } ∈
            (parse asciiLib defaultOption none specEnv specArgsOverride noFiles exampleK
              exampleFlags exampleConfig).config) :=
  ⟨by decide,
   (flags_beat_env asciiLib asciiLib_ok defaultOption none specEnv specArgs noFiles exampleK
      exampleFlags exampleConfig (by decide) (by decide) (by decide) (by decide)
      (by decide)).1 "client.secret".toList "xyz".toList (by decide) (by decide) (by decide)
      (by decide) (by decide) (by decide) (by decide),
   (flags_beat_env asciiLib asciiLib_ok defaultOption none specEnv specArgs noFiles exampleK
      exampleFlags exampleConfig (by decide) (by decide) (by decide) (by decide)
      (by decide)).2 "client.id".toList "abc".toList (by decide) (by decide) (by decide)
      (by decide) (by decide) (by decide) (by decide) (by decide),
   (flags_beat_env asciiLib asciiLib_ok defaultOption none specEnv specArgsOverride noFiles
      exampleK exampleFlags exampleConfig (by decide) (by decide) (by decide) (by decide)
      (by decide)).1 "client.id".toList "override".toList (by decide) (by decide) (by decide)
      (by decide) (by decide) (by decide) (by decide)⟩

/-- C1 as stated fails: for the declared key `client_id`, with
`SNKD_CLIENT_ID=abc` in the environment and `--client_id=xyz` on the command
line, the parse succeeds without reading a file, the flag is set to `xyz`,
and the destination field keeps its default instead of the flag's value. -/
theorem flags_beat_env_counterexample :
    (run asciiLib underscoreConfig ⟨[], false⟩ [] none
        [(Marshal.transform asciiLib defaultOption "client_id".toList, "abc".toList)]
        ["prog".toList, "--client_id=xyz".toList] noFiles).map
      (fun o => (o.view, o.fs.lookup (flagName defaultOption "client_id".toList)))
      = some ((Ret.ok, [stringField "ClientId" "client_id" ""], []),
              some ⟨"client_id".toList, none, false, "xyz".toList, true⟩) := by
  decide

/-! ## Precedence of the file over the environment -/

/-- C2 (amended): let the runtime be any that acts on ASCII as Go does, the
delimiter be non-empty and unchanged by lower-casing, the arguments parse,
help be not requested, `--config` be not given, and the file named by the
config key of the environment-derived instance load.  For every key that
survives the environment naming and is set by its line in the file, with no
other line giving it another value: if the keys of the file and of the
environment do not lie above or below one another, the captured instance
holds the key only at its own path and the merged flags leave the key alone,
then the merged mapping reads the file's value under the key, whatever the
environment holds for it, every destination field tagged with the key holds
what the decoder makes of that value for its type, and that file is the one
file read. -/
theorem file_beats_env (L : Lib) (hL : L.ok) (op : parseOption) (validate : Validator)
    (env : Env) (args : List Str) (files : Files) (k : Conf) (fs : FlagSet) (config : Config)
    (key fv ev path : Str) (lines : List (Str × Str))
    (hd : op.delimiter ≠ []) (hdl : toLower L op.delimiter = op.delimiter)
    (hk : envKey L key)
    (hparse : (fs.Parse args).2 = none)
    (hhelp : koanfBool L op.delimiter (flagsOnly L op fs args) op.helpFlag = some false)
    (hfp : koanfString L op.delimiter (flagsOnly L op fs args) op.configPathKey = some [])
    (hep : koanfString L op.delimiter (withEnv L op env k) op.configPathKey = some path)
    (hpne : path ≠ [])
    (hfile : files path = some lines)
    (_henv : (Marshal.transform L op key, ev) ∈ env)
    (hline : (Marshal.transform L op key, fv) ∈ lines)
    (hlineu : ∀ e ∈ lines, hasPrefix e.1 op.envPrefix = true → f L op e.1 = key → e.2 = fv)
    (hcf : cleanKeys op.delimiter (dotenvParserEnv L op lines))
    (hce : cleanKeys op.delimiter (envProvider L op env))
    (hown : ownPath op.delimiter k key)
    (hleave : leavesAlone op.delimiter (flagsConf L op env args files k fs)
      (resolved L op env args files k fs).k key) :
    (flatten L op.delimiter (parse L op validate env args files k fs config).k).get key
        = some (Value.str fv) ∧
    (∀ fld ∈ config, fld.tag "koanf".toList = key →
      ∀ w, decodeValue key fld.kind fld.value (Value.str fv) = Except.ok w →
        { fld with value := w } ∈ (parse L op validate env args files k fs config).config) ∧
    (parse L op validate env args files k fs config).read = [path] := by
  have hres : resolved L op env args files k fs
      = ⟨flagsOnly L op fs args,
         koanfLoad L op (withEnv L op env k) (dotenvParserEnv L op lines), [path], Ret.ok⟩ := by
    simp [resolved, resolveFile, tryLoad, hfp, hep, hpne, hfile]
  obtain ⟨hk_eq, hc_eq, hr_eq, _, _⟩ :=
    parse_merged L op validate env args files k fs config hparse hhelp (by rw [hres])
  have hown1 : ownPath op.delimiter (withEnv L op env k) key :=
    ownPath_merge L hL _ hd _ hce key k hown
  obtain ⟨hf1, hf2⟩ := dotenvParserEnv_mem L hL op lines key fv
    ⟨_, hline, hasPrefix_append _ _, f_Marshal_transform L hL op hd hdl key hk⟩ hlineu
  obtain ⟨h1, h2, _⟩ := loaded_own L hL op.delimiter hd _ hcf key (Value.str fv) hf1 hf2
    (withEnv L op env k) hown1
  rw [hres] at hleave
  simp only at hleave
  have hv2 : (flatten L op.delimiter (merged L op env args files k fs)).get key
      = some (Value.str fv) := by
    simp only [merged, hres]
    apply flatten_get L hL
    · exact ⟨_, (merge_untouched _ _ _ key hleave _ (join_split _ _ hd)).mpr h1,
        join_split _ _ hd⟩
    · intro x hx hxk
      exact h2 x ((merge_untouched _ _ _ key hleave x hxk).mp hx) hxk
  rw [hk_eq, hc_eq, hr_eq]
  exact ⟨hv2, fun fld hf hkeq w hw => unmarshal_field L op _ config key _ w hv2 fld hf hkeq hw,
    by rw [hres]⟩

set_option maxRecDepth 100000 in
theorem file_beats_env_witness :
    ((flatten asciiLib defaultOption.delimiter
        (parse asciiLib defaultOption none fileEnv ["prog".toList] appFiles exampleK
          exampleFlags exampleConfig).k).get "client.id".toList
        = some (Value.str "fromfile".toList) ∧
     (∀ fld ∈ exampleConfig, fld.tag "koanf".toList = "client.id".toList →
       ∀ w, decodeValue "client.id".toList fld.kind fld.value (Value.str "fromfile".toList)
           = Except.ok w →
         { fld with value := w } ∈
           (parse asciiLib defaultOption none fileEnv ["prog".toList] appFiles exampleK
             exampleFlags exampleConfig).config) ∧
     (parse asciiLib defaultOption none fileEnv ["prog".toList] appFiles exampleK
        exampleFlags exampleConfig).read = ["app.env".toList]) ∧
    ((flatten asciiLib defaultOption.delimiter
        (parse asciiLib defaultOption none hyphenEnv ["prog".toList] hyphenFiles hyphenK
          exampleFlags hyphenConfig).k).get "log-level".toList
        = some (Value.str "info".toList) ∧
     (∀ fld ∈ hyphenConfig, fld.tag "koanf".toList = "log-level".toList →
       ∀ w, decodeValue "log-level".toList fld.kind fld.value (Value.str "info".toList)
           = Except.ok w →
         { fld with value := w } ∈
           (parse asciiLib defaultOption none hyphenEnv ["prog".toList] hyphenFiles hyphenK
             exampleFlags hyphenConfig).config) ∧
     (parse asciiLib defaultOption none hyphenEnv ["prog".toList] hyphenFiles hyphenK
        exampleFlags hyphenConfig).read = ["app.env".toList]) ∧
    ((flatten asciiLib defaultOption.delimiter
        (parse asciiLib defaultOption none hyphenEnv ["prog".toList] hyphenFiles hyphenK
          exampleFlags hyphenConfig).k).get "debug".toList
        = some (Value.str "true".toList) ∧
     (∀ fld ∈ hyphenConfig, fld.tag "koanf".toList = "debug".toList →
       ∀ w, decodeValue "debug".toList fld.kind fld.value (Value.str "true".toList)
           = Except.ok w →
         { fld with value := w } ∈
           (parse asciiLib defaultOption none hyphenEnv ["prog".toList] hyphenFiles hyphenK
             exampleFlags hyphenConfig).config) ∧
     (parse asciiLib defaultOption none hyphenEnv ["prog".toList] hyphenFiles hyphenK
        exampleFlags hyphenConfig).read = ["app.env".toList]) ∧
    (parse asciiLib defaultOption none hyphenEnv ["prog".toList] hyphenFiles hyphenK
        exampleFlags hyphenConfig).view
      = (Ret.ok, [stringField "LogLevel" "log-level" "info",
                  ⟨"Debug".toList, [("koanf".toList, "debug".toList)], Kind.bool,
                    Value.bool true⟩], ["app.env".toList]) :=
  ⟨file_beats_env asciiLib asciiLib_ok defaultOption none fileEnv ["prog".toList] appFiles
      exampleK exampleFlags exampleConfig "client.id".toList "fromfile".toList
      "fromenv".toList "app.env".toList [("SNKD_CLIENT_ID".toList, "fromfile".toList)]
      (by decide) (by decide) (by decide) (by decide) (by decide) (by decide) (by decide)
      (by decide) (by decide) (by decide) (by decide) (by decide) (by decide) (by decide)
      (by decide) (by decide),
   file_beats_env asciiLib asciiLib_ok defaultOption none hyphenEnv ["prog".toList] hyphenFiles
      hyphenK exampleFlags hyphenConfig "log-level".toList "info".toList
      "warn".toList "app.env".toList hyphenLines
      (by decide) (by decide) (by decide) (by decide) (by decide) (by decide) (by decide)
      (by decide) (by decide) (by decide) (by decide) (by decide) (by decide) (by decide)
      (by decide) (by decide),
   file_beats_env asciiLib asciiLib_ok defaultOption none hyphenEnv ["prog".toList] hyphenFiles
      hyphenK exampleFlags hyphenConfig "debug".toList "true".toList
      "false".toList "app.env".toList hyphenLines
      (by decide) (by decide) (by decide) (by decide) (by decide) (by decide) (by decide)
      (by decide) (by decide) (by decide) (by decide) (by decide) (by decide) (by decide)
      (by decide) (by decide),
   by decide⟩

/-- C2 as stated fails: for the declared key `client_id`, with
`SNKD_CLIENT_ID=fromfile` in the file named by `SNKD_CONFIG`,
`SNKD_CLIENT_ID=fromenv` in the environment and no flag given, the file is
read and the parse succeeds, and the merged value of the key is its default,
not the file's value. -/
theorem file_beats_env_counterexample :
    (run asciiLib underscoreConfig ⟨[], false⟩ [] none
        [("SNKD_CONFIG".toList, "app.env".toList),
         (Marshal.transform asciiLib defaultOption "client_id".toList, "fromenv".toList)]
        ["prog".toList]
        (fun p => if p = "app.env".toList then
          some [(Marshal.transform asciiLib defaultOption "client_id".toList,
            "fromfile".toList)]
          else none)).map
      (fun o => (o.view, (flatten asciiLib defaultOption.delimiter o.k).get
        "client_id".toList))
      = some ((Ret.ok, [stringField "ClientId" "client_id" ""], ["app.env".toList]),
              some (Value.str [])) := by
  decide

/-! ## Config-file path resolution -/

/-- C3 at the failing input: for the repository's `RootConfig` with its nil
`ConfigPath`, no `--config` and no `SNKD_CONFIG`, the file-resolution loop
panics in `k.String(op.configPathKey)`: the parse operation does not return
and the destination is left as it was.  With `ConfigPath` pointing to
`app.env` the loop asks for the file named by the text of the pointer, not
for `app.env`.  With `SNKD_CONFIG=app.env` in the environment the same
schema resolves `app.env`. -/
theorem config_path_nil_default :
    (run asciiLib rootConfig ⟨[], false⟩ [] none [] ["prog".toList] noFiles).map Outcome.view
      = some (Ret.panic, rootConfig, []) ∧
    (run asciiLib rootConfigSet ⟨[], false⟩ [] none [] ["prog".toList] appFiles).map
        Outcome.view
      = some (Ret.err (Err.sourceLoad (asciiLib.pointerText "app.env".toList)), rootConfigSet,
          [asciiLib.pointerText "app.env".toList]) ∧
    (run asciiLib rootConfig ⟨[], false⟩ [] none [("SNKD_CONFIG".toList, "app.env".toList)]
        ["prog".toList] appFiles).map (fun o => (o.ret, o.read))
      = some (Ret.ok, ["app.env".toList]) := by
  decide

/-! ## File load target -/

/-- C4 at the failing input: with `--config=app.env` given and `app.env`
holding `SNKD_CLIENT_ID=fromfile`, the file-resolution loop leaves the
environment-derived instance as it was and adds the file's pair to the
flags-only instance, which did not hold the key before. -/
theorem file_loaded_into_flags_mapping :
    (resolveFile asciiLib defaultOption appFiles
        (flagsOnly asciiLib defaultOption exampleFlags
          ["prog".toList, "--config=app.env".toList])
        (withEnv asciiLib defaultOption specEnv exampleK)).k
      = withEnv asciiLib defaultOption specEnv exampleK ∧
    (flatten asciiLib defaultOption.delimiter
      (resolveFile asciiLib defaultOption appFiles
        (flagsOnly asciiLib defaultOption exampleFlags
          ["prog".toList, "--config=app.env".toList])
        (withEnv asciiLib defaultOption specEnv exampleK)).flagK).get "client.id".toList
      = some (Value.str "fromfile".toList) ∧
    (flatten asciiLib defaultOption.delimiter
      (flagsOnly asciiLib defaultOption exampleFlags
        ["prog".toList, "--config=app.env".toList])).get "client.id".toList = none := by
  decide

/-! ## Unknown flags -/

/-- C5 at the failing input: after `RegisterFlags` on a flag set with default
settings, the flag set no longer tolerates unknown flags, and the parse
operation run on `prog --verbose` returns the unknown-flag error and leaves
the destination as it was. -/
theorem unknown_flag_rejected :
    (RegisterFlags asciiLib exampleConfig ⟨[], false⟩ []).map (fun r => r.fs.unknownFlags)
      = some false ∧
    (run asciiLib exampleConfig ⟨[], false⟩ [] none specEnv
        ["prog".toList, "--verbose".toList] noFiles).map Outcome.view
      = some (Ret.err (Err.flagParse "unknown flag: --verbose".toList), exampleConfig, []) := by
  decide

/-! ## Help short-circuit -/

/-- C8: for every runtime, environment, file system, captured state and
destination, when the arguments parse and the help flag reads true in the
flags-only mapping, the parse operation returns no error, leaves the
destination struct as it was, reads no file and runs neither the unmarshal
step nor the validation hook. -/
theorem help_short_circuit (L : Lib) (op : parseOption) (validate : Validator) (env : Env)
    (args : List Str) (files : Files) (k : Conf) (fs : FlagSet) (config : Config)
    (hparse : (fs.Parse args).2 = none)
    (hhelp : koanfBool L op.delimiter (flagsOnly L op fs args) op.helpFlag = some true) :
    (parse L op validate env args files k fs config).ret = Ret.ok ∧
    (parse L op validate env args files k fs config).config = config ∧
    (parse L op validate env args files k fs config).read = [] ∧
    (parse L op validate env args files k fs config).unmarshals = 0 ∧
    (parse L op validate env args files k fs config).validates = 0 := by
  simp only [flagsOnly] at hhelp
  rcases hP : fs.Parse args with ⟨fs1, oe⟩
  rw [hP] at hparse hhelp
  simp only at hparse hhelp
  subst hparse
  simp [parse, hP, hhelp]

set_option maxRecDepth 100000 in
theorem help_short_circuit_witness :
    (exampleFlagsHelp.Parse ["prog".toList, "--client-id=abc".toList, "--help".toList]).2 = none ∧
    (parse asciiLib defaultOption rejectAll fileEnv
        ["prog".toList, "--client-id=abc".toList, "--help".toList] appFiles exampleK
        exampleFlagsHelp exampleConfig).ret = Ret.ok ∧
    (parse asciiLib defaultOption rejectAll fileEnv
        ["prog".toList, "--client-id=abc".toList, "--help".toList] appFiles exampleK
        exampleFlagsHelp exampleConfig).config = exampleConfig ∧
    (parse asciiLib defaultOption rejectAll fileEnv
        ["prog".toList, "--client-id=abc".toList, "--help".toList] appFiles exampleK
        exampleFlagsHelp exampleConfig).read = [] ∧
    (parse asciiLib defaultOption rejectAll fileEnv
        ["prog".toList, "--client-id=abc".toList, "--help".toList] appFiles exampleK
        exampleFlagsHelp exampleConfig).unmarshals = 0 ∧
    (parse asciiLib defaultOption rejectAll fileEnv
        ["prog".toList, "--client-id=abc".toList, "--help".toList] appFiles exampleK
        exampleFlagsHelp exampleConfig).validates = 0 :=
  ⟨by decide,
   help_short_circuit asciiLib defaultOption rejectAll fileEnv
    ["prog".toList, "--client-id=abc".toList, "--help".toList] appFiles exampleK
    exampleFlagsHelp exampleConfig (by decide) (by decide)⟩

/-! ## Validation hook -/

/-- C9: when the arguments parse, help is not requested, the file-resolution
loop ends normally and the unmarshal step succeeds, the parse operation
returns exactly what the destination's `Validate` returns on the decoded
struct, or no error when the destination has no `Validate`, and `Validate`
runs once in the first case and not at all in the second.  In every
invocation `Validate` runs at most once; when flag parsing, file loading or
unmarshalling fails, that error is returned and `Validate` does not run; and
when the file-resolution loop panics, the parse operation panics and
`Validate` does not run. -/
theorem validation_hook (L : Lib) (op : parseOption) (validate : Validator) (env : Env)
    (args : List Str) (files : Files) (k : Conf) (fs : FlagSet) (config : Config) :
    ((fs.Parse args).2 = none →
      koanfBool L op.delimiter (flagsOnly L op fs args) op.helpFlag = some false →
      (resolved L op env args files k fs).ret = Ret.ok →
      (unmarshal L op (merged L op env args files k fs) config).2 = none →
        (parse L op validate env args files k fs config).ret
          = validateResult validate (unmarshal L op (merged L op env args files k fs) config).1 ∧
        (parse L op validate env args files k fs config).config
          = (unmarshal L op (merged L op env args files k fs) config).1 ∧
        (parse L op validate env args files k fs config).validates
          = (if validate.isSome then 1 else 0)) ∧
    (parse L op validate env args files k fs config).validates ≤ 1 ∧
    (∀ e, (fs.Parse args).2 = some e →
        (parse L op validate env args files k fs config).ret = Ret.err e ∧
        (parse L op validate env args files k fs config).validates = 0) ∧
    (∀ e, (fs.Parse args).2 = none →
      koanfBool L op.delimiter (flagsOnly L op fs args) op.helpFlag = some false →
      (resolved L op env args files k fs).ret = Ret.err e →
        (parse L op validate env args files k fs config).ret = Ret.err e ∧
        (parse L op validate env args files k fs config).validates = 0) ∧
    ((fs.Parse args).2 = none →
      koanfBool L op.delimiter (flagsOnly L op fs args) op.helpFlag = some false →
      (resolved L op env args files k fs).ret = Ret.panic →
        (parse L op validate env args files k fs config).ret = Ret.panic ∧
        (parse L op validate env args files k fs config).validates = 0) ∧
    (∀ e, (fs.Parse args).2 = none →
      koanfBool L op.delimiter (flagsOnly L op fs args) op.helpFlag = some false →
      (resolved L op env args files k fs).ret = Ret.ok →
      (unmarshal L op (merged L op env args files k fs) config).2 = some e →
        (parse L op validate env args files k fs config).ret = Ret.err e ∧
        (parse L op validate env args files k fs config).validates = 0) := by
  simp only [flagsOnly, resolved, merged, flagsConf, withEnv]
  rcases hP : fs.Parse args with ⟨fs1, oe⟩
  cases oe with
  | some e => simp [parse, hP]
  | none =>
    cases hh : koanfBool L op.delimiter (koanfLoad L op [] (posflagProvider L op fs1))
        op.helpFlag with
    | none => simp [parse, hP, hh]
    | some b =>
      cases b with
      | true => simp [parse, hP, hh]
      | false =>
        simp only [parse, hP, hh]
        cases hr : (resolveFile L op files (koanfLoad L op [] (posflagProvider L op fs1))
          (koanfLoad L op k (envProvider L op env))).ret with
        | panic => simp
        | err e => simp
        | ok =>
          simp only
          cases unmarshal L op (merge (confmapProvider L (flatten L op.delimiter
              (resolveFile L op files (koanfLoad L op [] (posflagProvider L op fs1))
                (koanfLoad L op k (envProvider L op env))).flagK))
              (resolveFile L op files (koanfLoad L op [] (posflagProvider L op fs1))
                (koanfLoad L op k (envProvider L op env))).k) config with
          | mk c1 e1 =>
            cases e1 with
            | some e => simp
            | none => cases validate <;> simp [validateResult]

set_option maxRecDepth 100000 in
theorem validation_hook_witness :
    ((parse asciiLib defaultOption rejectAll specEnv specArgs noFiles exampleK exampleFlags
        exampleConfig).ret = Ret.err (Err.validation "rejected".toList) ∧
     (parse asciiLib defaultOption rejectAll specEnv specArgs noFiles exampleK exampleFlags
        exampleConfig).config
       = (unmarshal asciiLib defaultOption
           (merged asciiLib defaultOption specEnv specArgs noFiles exampleK exampleFlags)
           exampleConfig).1 ∧
     (parse asciiLib defaultOption rejectAll specEnv specArgs noFiles exampleK exampleFlags
        exampleConfig).validates = 1) ∧
    ((parse asciiLib defaultOption rejectAll specEnv ["prog".toList, "--verbose".toList] noFiles
        exampleK exampleFlags exampleConfig).ret
        = Ret.err (Err.flagParse "unknown flag: --verbose".toList) ∧
     (parse asciiLib defaultOption rejectAll specEnv ["prog".toList, "--verbose".toList] noFiles
        exampleK exampleFlags exampleConfig).validates = 0) ∧
    ((parse asciiLib defaultOption rejectAll otherEnv ["prog".toList] appFiles exampleK
        exampleFlags exampleConfig).ret = Ret.err (Err.sourceLoad "other.env".toList) ∧
     (parse asciiLib defaultOption rejectAll otherEnv ["prog".toList] appFiles exampleK
        exampleFlags exampleConfig).validates = 0) ∧
    ((parse asciiLib defaultOption rejectAll [] ["prog".toList] noFiles
        (defaultsConf asciiLib defaultOption rootConfig) exampleFlags rootConfig).ret
        = Ret.panic ∧
     (parse asciiLib defaultOption rejectAll [] ["prog".toList] noFiles
        (defaultsConf asciiLib defaultOption rootConfig) exampleFlags rootConfig).validates
        = 0) ∧
    ((parse asciiLib defaultOption rejectAll [("SNKD_DEBUG".toList, "maybe".toList)]
        ["prog".toList] noFiles [(["debug".toList], Value.bool false)] exampleFlags
        boolConfig).ret = Ret.err (Err.decode "debug".toList) ∧
     (parse asciiLib defaultOption rejectAll [("SNKD_DEBUG".toList, "maybe".toList)]
        ["prog".toList] noFiles [(["debug".toList], Value.bool false)] exampleFlags
        boolConfig).validates = 0) :=
  ⟨(validation_hook asciiLib defaultOption rejectAll specEnv specArgs noFiles exampleK
      exampleFlags exampleConfig).1 (by decide) (by decide) (by decide) (by decide),
   (validation_hook asciiLib defaultOption rejectAll specEnv ["prog".toList, "--verbose".toList]
      noFiles exampleK exampleFlags exampleConfig).2.2.1 _ (by decide),
   (validation_hook asciiLib defaultOption rejectAll otherEnv ["prog".toList] appFiles exampleK
      exampleFlags exampleConfig).2.2.2.1 _ (by decide) (by decide) (by decide),
   (validation_hook asciiLib defaultOption rejectAll [] ["prog".toList] noFiles
      (defaultsConf asciiLib defaultOption rootConfig) exampleFlags
      rootConfig).2.2.2.2.1 (by decide) (by decide) (by decide),
   (validation_hook asciiLib defaultOption rejectAll [("SNKD_DEBUG".toList, "maybe".toList)]
      ["prog".toList] noFiles [(["debug".toList], Value.bool false)] exampleFlags
      boolConfig).2.2.2.2.2 _ (by decide) (by decide) (by decide) (by decide)⟩

/-! ## Registered flags -/

theorem lookup_none_iff (fs : FlagSet) (n : Str) :
    fs.lookup n = none ↔ n ∉ fs.flags.map Flag.name := by
  simp only [FlagSet.lookup, List.find?_eq_none, decide_eq_true_eq, List.mem_map, not_exists,
    not_and]

theorem addFlag_noShort (fs : FlagSet) (fl : Flag) (hs : fl.shorthand = none)
    (hn : fs.lookup fl.name = none) :
    fs.addFlag fl = some { fs with flags := fs.flags ++ [fl] } := by
  simp [FlagSet.addFlag, hn, hs]

theorem filter_knownKeys (k : FlatMap) (c : Str) : filter k (keys k ++ [c]) = k := by
  simp only [filter, keys]
  apply List.filter_eq_self.mpr
  intro e he
  simp only [decide_eq_true_eq, List.mem_append, List.mem_map]
  exact Or.inl ⟨e, he, rfl⟩

theorem registerAll_names (L : Lib) (op : parseOption) :
    ∀ (l : FlatMap) (fs : FlagSet),
      (∀ n ∈ expectedFlagNames op l, fs.lookup n = none) →
      (expectedFlagNames op l).Nodup →
      ∃ fs1, registerAll L op fs l = some fs1 ∧
        fs1.flags.map Flag.name = fs.flags.map Flag.name ++ expectedFlagNames op l ∧
        fs1.unknownFlags = fs.unknownFlags := by
  intro l
  induction l with
  | nil => intro fs _ _; exact ⟨fs, rfl, by simp [expectedFlagNames], rfl⟩
  | cons e t ih =>
    intro fs hfree hnd
    obtain ⟨key, v⟩ := e
    by_cases hskip : (∀ b, v ≠ Value.bool b) ∧ flagName op key = op.configPathKey
    · have hexp : expectedFlagNames op ((key, v) :: t) = expectedFlagNames op t := by
        cases v with
        | bool b => exact absurd rfl (hskip.1 b)
        | str s => simp [expectedFlagNames, List.filterMap_cons, hskip.2]
        | null => simp [expectedFlagNames, List.filterMap_cons, hskip.2]
        | ptr t => simp [expectedFlagNames, List.filterMap_cons, hskip.2]
      have hone : registerOne L op fs (key, v) = some fs := by
        cases v with
        | bool b => exact absurd rfl (hskip.1 b)
        | str s => simp [registerOne, hskip.2]
        | null => simp [registerOne, hskip.2]
        | ptr t => simp [registerOne, hskip.2]
      rw [hexp] at hfree hnd ⊢
      obtain ⟨fs1, h1, h2, h3⟩ := ih fs hfree hnd
      exact ⟨fs1, by simp [registerAll, hone, h1], h2, h3⟩
    · have hexp : expectedFlagNames op ((key, v) :: t)
          = flagName op key :: expectedFlagNames op t := by
        cases v with
        | bool b => simp [expectedFlagNames, List.filterMap_cons]
        | str s =>
          have : flagName op key ≠ op.configPathKey := fun h => hskip ⟨by simp, h⟩
          simp [expectedFlagNames, List.filterMap_cons, this]
        | null =>
          have : flagName op key ≠ op.configPathKey := fun h => hskip ⟨by simp, h⟩
          simp [expectedFlagNames, List.filterMap_cons, this]
        | ptr t =>
          have : flagName op key ≠ op.configPathKey := fun h => hskip ⟨by simp, h⟩
          simp [expectedFlagNames, List.filterMap_cons, this]
      rw [hexp] at hfree hnd ⊢
      have hn : fs.lookup (flagName op key) = none := hfree _ (List.mem_cons_self _ _)
      have hone : ∃ fl : Flag, fl.name = flagName op key ∧
          registerOne L op fs (key, v) = some { fs with flags := fs.flags ++ [fl] } := by
        cases v with
        | bool b =>
          exact ⟨_, rfl, by
            simp only [registerOne, FlagSet.Bool]
            exact addFlag_noShort fs _ rfl hn⟩
        | str s =>
          have : flagName op key ≠ op.configPathKey := fun h => hskip ⟨by simp, h⟩
          exact ⟨_, rfl, by
            simp only [registerOne, this, if_false, FlagSet.String]
            exact addFlag_noShort fs _ rfl hn⟩
        | null =>
          have : flagName op key ≠ op.configPathKey := fun h => hskip ⟨by simp, h⟩
          exact ⟨_, rfl, by
            simp only [registerOne, this, if_false, FlagSet.String]
            exact addFlag_noShort fs _ rfl hn⟩
        | ptr t =>
          have : flagName op key ≠ op.configPathKey := fun h => hskip ⟨by simp, h⟩
          exact ⟨_, rfl, by
            simp only [registerOne, this, if_false, FlagSet.String]
            exact addFlag_noShort fs _ rfl hn⟩
      obtain ⟨fl, hfl, hreg⟩ := hone
      have hfree2 : ∀ n ∈ expectedFlagNames op t,
          FlagSet.lookup { fs with flags := fs.flags ++ [fl] } n = none := by
        intro n hnm
        rw [lookup_none_iff]
        have h0 := (lookup_none_iff fs n).mp (hfree n (List.mem_cons_of_mem _ hnm))
        simp only [List.map_append, List.map_cons, List.map_nil, List.mem_append,
          List.mem_singleton, not_or]
        refine ⟨h0, ?_⟩
        rw [hfl]
        intro heq
        exact (List.nodup_cons.mp hnd).1 (heq ▸ hnm)
      obtain ⟨fs1, h1, h2, h3⟩ := ih _ hfree2 (List.nodup_cons.mp hnd).2
      refine ⟨fs1, by simp [registerAll, hreg, h1], ?_, h3⟩
      rw [h2]
      simp [hfl]

/-- C6 (amended): when the flag set holds no flag named like the config-path
key, no shorthand `c` and none of the names below, and these names are
pairwise distinct, `RegisterFlags` succeeds and adds exactly: the
config-path flag, and one flag per key of the defaults mapping, named by
replacing the delimiter with a hyphen, except a non-boolean key whose flag
name is the config-path key.  It adds no help flag of its own, and it leaves
the unknown-flag setting of the flag set as it found it. -/
theorem registered_flags (L : Lib) (config : Config) (fs0 : FlagSet)
    (options : List ParseOption)
    (hc : fs0.lookup (applyOptions options).configPathKey = none)
    (hs : fs0.lookupShort 'c' = none)
    (hfree : ∀ n ∈ expectedFlagNames (applyOptions options) (L.order _ (flatten L (applyOptions options).delimiter
        (defaultsConf L (applyOptions options) config))),
      fs0.lookup n = none)
    (hnd : ((applyOptions options).configPathKey ::
      expectedFlagNames (applyOptions options) (L.order _ (flatten L (applyOptions options).delimiter
        (defaultsConf L (applyOptions options) config)))).Nodup) :
    ∃ r, RegisterFlags L config fs0 options = some r ∧
      r.fs.flags.map Flag.name = fs0.flags.map Flag.name ++
        (applyOptions options).configPathKey ::
          expectedFlagNames (applyOptions options) (L.order _ (flatten L (applyOptions options).delimiter
        (defaultsConf L (applyOptions options) config))) ∧
      r.fs.unknownFlags = fs0.unknownFlags ∧
      r.k = defaultsConf L (applyOptions options) config ∧ r.op = applyOptions options := by
  have hP : FlagSet.StringP { fs0 with unknownFlags := true }
      (applyOptions options).configPathKey 'c' []
      = some { flags := fs0.flags ++ [⟨(applyOptions options).configPathKey, some 'c', false,
          [], false⟩], unknownFlags := true } := by
    have h1 : FlagSet.lookup { fs0 with unknownFlags := true }
        (applyOptions options).configPathKey = none := hc
    have h2 : FlagSet.lookupShort { fs0 with unknownFlags := true } 'c' = none := hs
    simp [FlagSet.StringP, FlagSet.addFlag, h1, h2]
  have hfree2 : ∀ n ∈ expectedFlagNames (applyOptions options) (L.order _ (flatten L (applyOptions options).delimiter
        (defaultsConf L (applyOptions options) config))),
      FlagSet.lookup { flags := fs0.flags ++ [⟨(applyOptions options).configPathKey, some 'c',
        false, [], false⟩], unknownFlags := true } n = none := by
    intro n hn
    rw [lookup_none_iff]
    have h0 := (lookup_none_iff fs0 n).mp (hfree n hn)
    simp only [List.map_append, List.map_cons, List.map_nil, List.mem_append,
      List.mem_singleton, not_or]
    refine ⟨h0, ?_⟩
    intro heq
    exact (List.nodup_cons.mp hnd).1 (heq ▸ hn)
  obtain ⟨fs1, h1, h2, h3⟩ := registerAll_names L (applyOptions options) _ _ hfree2
    (List.nodup_cons.mp hnd).2
  refine ⟨⟨applyOptions options, defaultsConf L (applyOptions options) config,
    { fs1 with unknownFlags := fs0.unknownFlags }⟩, ?_, ?_, rfl, rfl, rfl⟩
  · simp only [RegisterFlags, hP, filter_knownKeys, h1]
  · simp only [h2]
    simp

set_option maxRecDepth 100000 in
theorem registered_flags_witness :
    ∃ r, RegisterFlags asciiLib exampleConfig ⟨[], true⟩ [] = some r ∧
      r.fs.flags.map Flag.name = [] ++
        "config".toList :: ["client-id".toList, "client-secret".toList] ∧
      r.fs.unknownFlags = true ∧
      r.k = exampleK ∧ r.op = defaultOption :=
  registered_flags asciiLib exampleConfig ⟨[], true⟩ [] (by decide) (by decide) (by decide)
    (by decide)

/-- C6 as stated fails: on an empty flag set `RegisterFlags` for the schema
`{client.id, client.secret}` defines `config`, `client-id` and
`client-secret` and no flag named `help`. -/
theorem registered_flags_counterexample :
    (RegisterFlags asciiLib exampleConfig ⟨[], false⟩ []).map
      (fun r => (r.fs.flags.map Flag.name, r.fs.lookup "help".toList))
      = some (["config".toList, "client-id".toList, "client-secret".toList], none) := by
  decide

/-! ## Repeated invocations -/

/-- C10 (amended): the flags-only instance is rebuilt on every invocation,
but the working instance is the one captured at registration and is carried
from one invocation to the next.  When the arguments parse, help is not
requested and the file-resolution loop ends normally, a key that the
environment map, the map of the resolved file and the merged flags all leave
alone has in the merged instance exactly the leaves it had in the instance
the invocation started from: it reads as the value it had, and as absent if
it was absent. -/
theorem working_mapping_persists (L : Lib) (hL : L.ok) (op : parseOption)
    (validate : Validator) (env : Env) (args : List Str) (files : Files) (k : Conf)
    (fs : FlagSet) (config : Config) (key : Str)
    (hparse : (fs.Parse args).2 = none)
    (hhelp : koanfBool L op.delimiter (flagsOnly L op fs args) op.helpFlag = some false)
    (hret : (resolved L op env args files k fs).ret = Ret.ok)
    (henv : leavesAlone op.delimiter (unflatten L op.delimiter (envProvider L op env)) k key)
    (hfile : ∀ p lines, (resolved L op env args files k fs).read = [p] →
      files p = some lines →
      leavesAlone op.delimiter (unflatten L op.delimiter (dotenvParserEnv L op lines))
        (withEnv L op env k) key)
    (hflag : leavesAlone op.delimiter (flagsConf L op env args files k fs)
      (resolved L op env args files k fs).k key) :
    (∀ e : Path × Value, join op.delimiter e.1 = key →
      (e ∈ (parse L op validate env args files k fs config).k ↔ e ∈ k)) ∧
    (∀ v, (∃ e ∈ k, join op.delimiter e.1 = key) →
      (∀ e ∈ k, join op.delimiter e.1 = key → e.2 = v) →
      (flatten L op.delimiter (parse L op validate env args files k fs config).k).get key
        = some v) ∧
    ((∀ e ∈ k, join op.delimiter e.1 ≠ key) →
      (flatten L op.delimiter (parse L op validate env args files k fs config).k).get key
        = none) := by
  obtain ⟨hk_eq, _, _, _, _⟩ :=
    parse_merged L op validate env args files k fs config hparse hhelp hret
  have h1 : ∀ e : Path × Value, join op.delimiter e.1 = key →
      (e ∈ withEnv L op env k ↔ e ∈ k) :=
    fun e he => merge_untouched _ _ _ key henv e he
  have h2 : ∀ e : Path × Value, join op.delimiter e.1 = key →
      (e ∈ (resolved L op env args files k fs).k ↔ e ∈ withEnv L op env k) := by
    intro e he
    rcases resolveFile_cases L op files (flagsOnly L op fs args) (withEnv L op env k) hret
      with ⟨p, lines, hf, hr, hcase⟩ | ⟨_, hb, _⟩
    · rcases hcase with ⟨_, hb, _⟩ | ⟨_, hb, _⟩
      · simp only [resolved]; rw [hb]
      · simp only [resolved]; rw [hb]
        exact merge_untouched _ _ _ key (hfile p lines hr hf) e he
    · simp only [resolved]; rw [hb]
  have h3 : ∀ e : Path × Value, join op.delimiter e.1 = key →
      (e ∈ (parse L op validate env args files k fs config).k ↔ e ∈ k) := by
    intro e he
    rw [hk_eq]
    simp only [merged]
    rw [merge_untouched _ _ _ key hflag e he, h2 e he, h1 e he]
  refine ⟨h3, ?_, ?_⟩
  · intro v hex hall
    apply flatten_get L hL
    · obtain ⟨e, he, hek⟩ := hex
      exact ⟨e, (h3 e hek).mpr he, hek⟩
    · intro x hx hxk
      exact hall x ((h3 x hxk).mp hx) hxk
  · intro hno
    apply flatten_get_none L hL
    intro x hx hxk
    exact hno x ((h3 x hxk).mp hx) hxk

set_option maxRecDepth 100000 in
theorem working_mapping_persists_witness :
    (flatten asciiLib defaultOption.delimiter
      (parse asciiLib defaultOption none specEnv specArgs noFiles exampleK exampleFlags
        exampleConfig).k).get "client.id".toList = some (Value.str "abc".toList) ∧
    ((∀ e : Path × Value, join defaultOption.delimiter e.1 = "client.id".toList →
      (e ∈ (parseTwice asciiLib defaultOption none specEnv [] specArgs noFiles exampleK
              exampleFlags exampleConfig).k ↔
        e ∈ (parse asciiLib defaultOption none specEnv specArgs noFiles exampleK exampleFlags
              exampleConfig).k)) ∧
     (∀ v, (∃ e ∈ (parse asciiLib defaultOption none specEnv specArgs noFiles exampleK
              exampleFlags exampleConfig).k, join defaultOption.delimiter e.1
                = "client.id".toList) →
      (∀ e ∈ (parse asciiLib defaultOption none specEnv specArgs noFiles exampleK
              exampleFlags exampleConfig).k, join defaultOption.delimiter e.1
                = "client.id".toList → e.2 = v) →
      (flatten asciiLib defaultOption.delimiter
        (parseTwice asciiLib defaultOption none specEnv [] specArgs noFiles exampleK
          exampleFlags exampleConfig).k).get "client.id".toList = some v) ∧
     ((∀ e ∈ (parse asciiLib defaultOption none specEnv specArgs noFiles exampleK
              exampleFlags exampleConfig).k, join defaultOption.delimiter e.1
                ≠ "client.id".toList) →
      (flatten asciiLib defaultOption.delimiter
        (parseTwice asciiLib defaultOption none specEnv [] specArgs noFiles exampleK
          exampleFlags exampleConfig).k).get "client.id".toList = none)) :=
  ⟨by decide,
   working_mapping_persists asciiLib asciiLib_ok defaultOption none [] specArgs noFiles
    (parse asciiLib defaultOption none specEnv specArgs noFiles exampleK exampleFlags
      exampleConfig).k
    (parse asciiLib defaultOption none specEnv specArgs noFiles exampleK exampleFlags
      exampleConfig).fs
    (parse asciiLib defaultOption none specEnv specArgs noFiles exampleK exampleFlags
      exampleConfig).config
    "client.id".toList (by decide) (by decide) (by decide) (by decide)
    (fun p lines _ hf => by simp [noFiles] at hf) (by decide)⟩

/-- C10 as stated fails.  After a first invocation with `SNKD_CLIENT_ID=abc`,
a second invocation with that variable removed still merges and decodes
`abc` for `client.id`, while the same sources run on the registration state
give the empty default.  And with unchanged sources two invocations differ:
when the config path defaults to `a.env` and `a.env` sets the config key to
`b.env`, the first invocation reads `a.env` and the second reads `b.env`. -/
theorem working_mapping_persists_counterexample :
    ((parseTwice asciiLib defaultOption none specEnv [] ["prog".toList] noFiles exampleK
        exampleFlags exampleConfig).view
      = (Ret.ok, [stringField "ClientId" "client.id" "abc",
                  stringField "ClientSecret" "client.secret" ""], []) ∧
     (parse asciiLib defaultOption none [] ["prog".toList] noFiles exampleK exampleFlags
        exampleConfig).view = (Ret.ok, exampleConfig, [])) ∧
    ((run asciiLib pathConfig ⟨[], false⟩ [] none [] ["prog".toList] chainFiles).map
        Outcome.view
      = some (Ret.ok, [stringField "ConfigPath" "config" "b.env",
                       stringField "ClientId" "client.id" "one"], ["a.env".toList]) ∧
     (RegisterFlags asciiLib pathConfig ⟨[], false⟩ []).map
        (fun r => (parseTwice asciiLib r.op none [] [] ["prog".toList] chainFiles r.k r.fs
          pathConfig).view)
      = some (Ret.ok, [stringField "ConfigPath" "config" "b.env",
                       stringField "ClientId" "client.id" "two"], ["b.env".toList])) := by
  decide

/-! ## Marshal and reload -/

theorem structsProvider_mem (op : parseOption) (cfg : Config) (hclean : cleanSchema op cfg)
    (fld : Field) (hf : fld ∈ cfg) :
    (fld.tag op.tag, fld.value) ∈ structsProvider op cfg := by
  apply (build_mem _ _ _ _ _).1
  · exact ⟨_, List.mem_map.mpr ⟨fld, hf, rfl⟩, rfl⟩
  · intro e he hek
    obtain ⟨g, hg, rfl⟩ := List.mem_map.mp he
    simp only at hek
    have : g = fld := hclean g hg fld hf (by rw [hek]; exact related_self _)
    rw [this]

theorem mem_structsProvider (op : parseOption) (cfg : Config) (a : Str × Value)
    (h : a ∈ structsProvider op cfg) : ∃ fld ∈ cfg, a = (fld.tag op.tag, fld.value) := by
  obtain ⟨g, hg, rfl⟩ := List.mem_map.mp (mem_build _ _ h)
  exact ⟨g, hg, rfl⟩

theorem cleanKeys_structsProvider (op : parseOption) (cfg : Config)
    (hclean : cleanSchema op cfg) : cleanKeys op.delimiter (structsProvider op cfg) := by
  intro a ha b hb hrel
  obtain ⟨fa, hfa, rfl⟩ := mem_structsProvider op cfg a ha
  obtain ⟨fb, hfb, rfl⟩ := mem_structsProvider op cfg b hb
  rw [hclean fa hfa fb hfb hrel]

/-- Entries of `k.All()` after the defaults of a clean schema are loaded into
an empty instance: the fields under their keys. -/
theorem defaultsAll (L : Lib) (hL : L.ok) (op : parseOption) (hd : op.delimiter ≠ [])
    (cfg : Config) (hclean : cleanSchema op cfg) :
    (∀ a ∈ flatten L op.delimiter (koanfLoad L op [] (structsProvider op cfg)),
      ∃ fld ∈ cfg, a = (fld.tag op.tag, fld.value)) ∧
    (∀ fld ∈ cfg, (fld.tag op.tag, fld.value)
      ∈ flatten L op.delimiter (koanfLoad L op [] (structsProvider op cfg))) := by
  have hc := cleanKeys_structsProvider op cfg hclean
  have hmem := mem_unflatten L hL op.delimiter hd _ hc
  constructor
  · intro a ha
    obtain ⟨x, hx, rfl⟩ := mem_flatten L hL _ _ _ ha
    rcases mem_merge_elim _ _ _ hx with h1 | ⟨h1, _⟩
    · obtain ⟨b, hb, rfl⟩ := (hmem x).mp h1
      simp only [join_split _ _ hd]
      exact mem_structsProvider op cfg b hb
    · simp at h1
  · intro fld hf
    have h1 := structsProvider_mem op cfg hclean fld hf
    obtain ⟨h2, h2u, _⟩ := loaded_own L hL op.delimiter hd _ hc (fld.tag op.tag) fld.value h1
      (by
        intro e he hek
        obtain ⟨g, hg, rfl⟩ := mem_structsProvider op cfg e he
        simp only at hek
        have : g = fld := hclean g hg fld hf (by rw [hek]; exact related_self _)
        rw [this])
      [] (by intro e he; simp at he)
    apply get_some_mem
    apply flatten_get L hL
    · exact ⟨_, h2, join_split _ _ hd⟩
    · exact h2u

theorem singleton_related (a b : Str) (h : related [a] [b] = true) : a = b := by
  simp only [related, Bool.or_eq_true, List.isPrefixOf_iff_prefix] at h
  rcases h with h | h
  · simpa using h.eq_of_length (by simp)
  · exact (by simpa using h.eq_of_length (by simp) : b = a).symm

/-- The map `Marshal` hands to the dotenv writer for one instance of a clean
schema with environment-safe keys: every field under its marshalled name
with its rendered value, and nothing else. -/
theorem Marshal_entries (L : Lib) (hL : L.ok) (cfg : Config) (options : List ParseOption)
    (hd : (applyOptions options).delimiter ≠ [])
    (hdl : toLower L (applyOptions options).delimiter = (applyOptions options).delimiter)
    (hkeys : ∀ fld ∈ cfg, envKey L (fld.tag (applyOptions options).tag))
    (hclean : cleanSchema (applyOptions options) cfg) :
    (∀ e ∈ Marshal L [cfg] options, ∃ fld ∈ cfg,
      e = (Marshal.transform L (applyOptions options) (fld.tag (applyOptions options).tag),
           sprint L fld.value)) ∧
    (∀ fld ∈ cfg,
      (Marshal.transform L (applyOptions options) (fld.tag (applyOptions options).tag),
        sprint L fld.value) ∈ Marshal L [cfg] options) := by
  obtain ⟨hall, hhas⟩ := defaultsAll L hL (applyOptions options) hd cfg hclean
  have hrt : ∀ fld ∈ cfg, f L (applyOptions options)
      (Marshal.transform L (applyOptions options) (fld.tag (applyOptions options).tag))
        = fld.tag (applyOptions options).tag :=
    fun fld hf => f_Marshal_transform L hL _ hd hdl _ (hkeys fld hf)
  have hinj : ∀ a ∈ cfg, ∀ b ∈ cfg,
      Marshal.transform L (applyOptions options) (a.tag (applyOptions options).tag)
        = Marshal.transform L (applyOptions options) (b.tag (applyOptions options).tag) →
      a = b := by
    intro a ha b hb hab
    apply hclean a ha b hb
    have : a.tag (applyOptions options).tag = b.tag (applyOptions options).tag := by
      rw [← hrt a ha, ← hrt b hb, hab]
    rw [this]; exact related_self _
  -- the map `envMap`
  have henvmem : ∀ n v, (n, v) ∈ load [] ((L.order _ (flatten L (applyOptions options).delimiter
        (koanfLoad L (applyOptions options) [] (structsProvider (applyOptions options) cfg)))).map
        (fun e => (Marshal.transform L (applyOptions options) e.1, e.2))) →
      ∃ fld ∈ cfg, n = Marshal.transform L (applyOptions options)
        (fld.tag (applyOptions options).tag) ∧ v = fld.value := by
    intro n v h
    obtain ⟨a, ha, hae⟩ := List.mem_map.mp (mem_build _ _ h)
    obtain ⟨fld, hf, rfl⟩ := hall a ((Lib.mem_order hL _ _).mp ha)
    simp only [Prod.mk.injEq] at hae
    exact ⟨fld, hf, hae.1.symm, hae.2.symm⟩
  constructor
  · intro e he
    simp only [Marshal, List.foldl_cons, List.foldl_nil, List.mem_map] at he
    obtain ⟨x, hx, rfl⟩ := he
    have hx := (Lib.mem_order hL _ _).mp hx
    rcases mem_merge_elim _ _ _ hx with h1 | ⟨h1, _⟩
    · simp only [unflatten, if_true, List.mem_map] at h1
      obtain ⟨y, hy, rfl⟩ := h1
      obtain ⟨fld, hf, hn, hv⟩ := henvmem y.1 y.2 hy
      exact ⟨fld, hf, by simp [hn, hv]⟩
    · simp at h1
  · intro fld hf
    simp only [Marshal, List.foldl_cons, List.foldl_nil, List.mem_map]
    have h1 := build_mem ((L.order _ (flatten L (applyOptions options).delimiter
        (koanfLoad L (applyOptions options) [] (structsProvider (applyOptions options) cfg)))).map
        (fun e => (Marshal.transform L (applyOptions options) e.1, e.2)))
      (Marshal.transform L (applyOptions options) (fld.tag (applyOptions options).tag))
      fld.value
      ⟨_, List.mem_map.mpr ⟨_, (Lib.mem_order hL _ _).mpr (hhas fld hf), rfl⟩, rfl⟩
      (by
        intro e he hek
        obtain ⟨a, ha, rfl⟩ := List.mem_map.mp he
        obtain ⟨g, hg, rfl⟩ := hall a ((Lib.mem_order hL _ _).mp ha)
        simp only at hek ⊢
        rw [hinj g hg fld hf hek])
    refine ⟨([Marshal.transform L (applyOptions options) (fld.tag (applyOptions options).tag)],
      fld.value), (Lib.mem_order hL _ _).mpr ?_, by simp⟩
    apply mem_merge_src
    · simp only [unflatten, if_true, List.mem_map]
      exact ⟨_, h1.1, rfl⟩
    · intro s hs hrel
      simp only [unflatten, if_true, List.mem_map] at hs
      obtain ⟨y, hy, rfl⟩ := hs
      have hn := singleton_related _ _ hrel
      have hv := h1.2 y hy hn
      rw [← hn, ← hv]

theorem Lib.order_nil {L : Lib} (h : L.ok) (α : Type) : L.order α [] = [] :=
  List.Perm.eq_nil (h.2 α [])

/-- With no flag given the flags-only instance is empty, help is not
requested, the flags name no config file and the merge step adds nothing. -/
theorem no_flags (L : Lib) (hL : L.ok) (op : parseOption) (fs : FlagSet) (args : List Str)
    (hnone : ∀ fl ∈ (fs.Parse args).1.flags, fl.changed = false) :
    flagsOnly L op fs args = [] ∧
    koanfBool L op.delimiter (flagsOnly L op fs args) op.helpFlag = some false ∧
    koanfString L op.delimiter (flagsOnly L op fs args) op.configPathKey = some [] ∧
    confmapProvider L (flatten L op.delimiter (flagsOnly L op fs args)) = [] := by
  have hp : posflagProvider L op (fs.Parse args).1 = [] := by
    simp only [posflagProvider]
    have : (L.order _ (fs.Parse args).1.flags).filterMap (fun fl =>
        if fl.changed then some (transform L op fl.name, Value.str fl.value) else none) = [] := by
      rw [List.filterMap_eq_nil_iff]
      intro fl hfl
      have := hnone fl ((Lib.mem_order hL _ _).mp hfl)
      simp [this]
    rw [this]; rfl
  have hu : ∀ delim, unflatten L delim [] = [] := by
    intro delim
    simp only [unflatten, Lib.order_nil hL]
    split <;> rfl
  have hfo : flagsOnly L op fs args = [] := by
    simp only [flagsOnly, koanfLoad, hp, hu]
    rfl
  have hfl : flatten L op.delimiter [] = [] := by
    simp only [flatten, Lib.order_nil hL]
    rfl
  refine ⟨hfo, ?_, ?_, ?_⟩
  · simp [hfo, koanfBool, koanfGet, hfl, FlatMap.get]
  · simp [hfo, koanfString, koanfGet, hfl, FlatMap.get]
  · simp only [hfo, hfl, confmapProvider, hu]

theorem parseBool_formatBool (b : Bool) : parseBool (formatBool b) = some b := by
  cases b <;> decide

/-- A scalar field is decoded back from the rendering of its value. -/
theorem decode_rendered (L : Lib) (m : FlatMap) (fld : Field) (cur : Value)
    (hs : scalarField fld)
    (hm : m.get (fld.tag "koanf".toList) = some (Value.str (sprint L fld.value))) :
    decodeField L m { fld with value := cur } = (fld, none) := by
  have htag : Field.tag { fld with value := cur } "koanf".toList = fld.tag "koanf".toList := rfl
  simp only [decodeField, fieldSource, htag, hm]
  rcases hs with ⟨hk, s, hv⟩ | ⟨hk, b, hv⟩
  · cases fld with
    | mk name tags kind value =>
      simp only at hk hv
      subst hk; subst hv
      simp [decodeValue, sprint]
  · cases fld with
    | mk name tags kind value =>
      simp only at hk hv
      subst hk; subst hv
      simp [decodeValue, sprint, parseBool_formatBool]

theorem unmarshal_all (L : Lib) (op : parseOption) (c : Conf) (cfg : Config)
    (g : Field → Value)
    (h : ∀ fld ∈ cfg, decodeField L (flatten L op.delimiter c) { fld with value := g fld }
      = (fld, none)) :
    unmarshal L op c (withValues cfg g) = (cfg, none) := by
  have hmap : (withValues cfg g).map (decodeField L (flatten L op.delimiter c))
      = cfg.map (fun fld => (fld, (none : Option Err))) := by
    simp only [withValues, List.map_map]
    apply List.map_congr_left
    intro fld hf
    exact h fld hf
  simp only [unmarshal, hmap, List.map_map]
  refine Prod.ext ?_ ?_
  · simp only [Function.comp]
    exact List.map_id' cfg
  · simp only
    have : (cfg.map (fun fld => (fld, (none : Option Err)))).filterMap Prod.snd = [] := by
      rw [List.filterMap_eq_nil_iff]
      intro e he
      obtain ⟨fld, _, rfl⟩ := List.mem_map.mp he
      rfl
    rw [this]; rfl

/-- C7 (amended): let the runtime be any that acts on ASCII as Go does and
the delimiter be non-empty and unchanged by lower-casing.  For a schema of
string and boolean fields whose keys survive the environment naming, do not
lie above or below one another and are the same under the provider tag and
under the `koanf` tag: the load-path key transform returns every key from
its marshalled name; two fields with the same marshalled name are the same
field; and when no flag is given, the config key of the working mapping
names a file that holds what `Marshal` wrote for an instance of the schema,
the environment keys do not lie above or below one another and the captured
mapping holds the keys at their own paths, the parse operation fills a
destination of that struct type with exactly the marshalled values, reads
that one file, and returns what `Validate` returns on them. -/
theorem marshal_reload (L : Lib) (hL : L.ok) (cfg : Config) (options : List ParseOption)
    (hd : (applyOptions options).delimiter ≠ [])
    (hdl : toLower L (applyOptions options).delimiter = (applyOptions options).delimiter)
    (hkeys : ∀ fld ∈ cfg, envKey L (fld.tag (applyOptions options).tag))
    (htag : ∀ fld ∈ cfg, fld.tag "koanf".toList = fld.tag (applyOptions options).tag)
    (hscalar : ∀ fld ∈ cfg, scalarField fld)
    (hclean : cleanSchema (applyOptions options) cfg) :
    (∀ fld ∈ cfg, f L (applyOptions options)
        (Marshal.transform L (applyOptions options) (fld.tag (applyOptions options).tag))
          = fld.tag (applyOptions options).tag) ∧
    (∀ a ∈ cfg, ∀ b ∈ cfg,
      Marshal.transform L (applyOptions options) (a.tag (applyOptions options).tag)
        = Marshal.transform L (applyOptions options) (b.tag (applyOptions options).tag) →
      a = b) ∧
    (∀ (validate : Validator) (env : Env) (args : List Str) (files : Files) (k : Conf)
        (fs : FlagSet) (path : Str) (g : Field → Value),
      (fs.Parse args).2 = none →
      (∀ fl ∈ (fs.Parse args).1.flags, fl.changed = false) →
      koanfString L (applyOptions options).delimiter (withEnv L (applyOptions options) env k)
        (applyOptions options).configPathKey = some path →
      path ≠ [] →
      files path = some (Marshal L [cfg] options) →
      cleanKeys (applyOptions options).delimiter (envProvider L (applyOptions options) env) →
      (∀ fld ∈ cfg, ownPath (applyOptions options).delimiter k
        (fld.tag (applyOptions options).tag)) →
      (parse L (applyOptions options) validate env args files k fs (withValues cfg g)).config
          = cfg ∧
        (parse L (applyOptions options) validate env args files k fs (withValues cfg g)).ret
          = validateResult validate cfg ∧
        (parse L (applyOptions options) validate env args files k fs (withValues cfg g)).read
          = [path]) := by
  have hrt : ∀ fld ∈ cfg, f L (applyOptions options)
      (Marshal.transform L (applyOptions options) (fld.tag (applyOptions options).tag))
        = fld.tag (applyOptions options).tag :=
    fun fld hf => f_Marshal_transform L hL _ hd hdl _ (hkeys fld hf)
  have hsame : ∀ a ∈ cfg, ∀ b ∈ cfg,
      a.tag (applyOptions options).tag = b.tag (applyOptions options).tag → a = b := by
    intro a ha b hb hab
    exact hclean a ha b hb (by rw [hab]; exact related_self _)
  have hinj : ∀ a ∈ cfg, ∀ b ∈ cfg,
      Marshal.transform L (applyOptions options) (a.tag (applyOptions options).tag)
        = Marshal.transform L (applyOptions options) (b.tag (applyOptions options).tag) →
      a = b := by
    intro a ha b hb hab
    apply hsame a ha b hb
    rw [← hrt a ha, ← hrt b hb, hab]
  refine ⟨hrt, hinj, ?_⟩
  intro validate env args files k fs path g hparse hnone hep hpne hfile hce hown
  obtain ⟨hM1, hM2⟩ := Marshal_entries L hL cfg options hd hdl hkeys hclean
  obtain ⟨hfo, hhelp, hfp, hconf⟩ := no_flags L hL (applyOptions options) fs args hnone
  have hres : resolved L (applyOptions options) env args files k fs
      = ⟨flagsOnly L (applyOptions options) fs args,
         koanfLoad L (applyOptions options) (withEnv L (applyOptions options) env k)
           (dotenvParserEnv L (applyOptions options) (Marshal L [cfg] options)),
         [path], Ret.ok⟩ := by
    simp [resolved, resolveFile, tryLoad, hfp, hep, hpne, hfile]
  obtain ⟨_, hc_eq, hr_eq, hret_eq, _⟩ :=
    parse_merged L (applyOptions options) validate env args files k fs (withValues cfg g)
      hparse hhelp (by rw [hres])
  have hmerged : merged L (applyOptions options) env args files k fs
      = koanfLoad L (applyOptions options) (withEnv L (applyOptions options) env k)
          (dotenvParserEnv L (applyOptions options) (Marshal L [cfg] options)) := by
    simp only [merged, flagsConf, hres, hconf]
    rfl
  -- the map read back from the file
  have hrm : ∀ a ∈ dotenvParserEnv L (applyOptions options) (Marshal L [cfg] options),
      ∃ fld ∈ cfg, a = (fld.tag (applyOptions options).tag, Value.str (sprint L fld.value)) := by
    intro a ha
    have := mem_build _ _ ha
    simp only [List.mem_filterMap] at this
    obtain ⟨e, he, hea⟩ := this
    obtain ⟨fld, hf, rfl⟩ := hM1 e ((Lib.mem_order hL _ _).mp he)
    have hp : hasPrefix (Marshal.transform L (applyOptions options)
        (fld.tag (applyOptions options).tag)) (applyOptions options).envPrefix = true :=
      hasPrefix_append _ _
    simp only [hp, if_true, Option.some.injEq, hrt fld hf] at hea
    exact ⟨fld, hf, hea.symm⟩
  have hcf : cleanKeys (applyOptions options).delimiter
      (dotenvParserEnv L (applyOptions options) (Marshal L [cfg] options)) := by
    intro a ha b hb hrel
    obtain ⟨fa, hfa, rfl⟩ := hrm a ha
    obtain ⟨fb, hfb, rfl⟩ := hrm b hb
    rw [hclean fa hfa fb hfb hrel]
  have hval : ∀ fld ∈ cfg,
      (flatten L (applyOptions options).delimiter
        (merged L (applyOptions options) env args files k fs)).get (fld.tag "koanf".toList)
        = some (Value.str (sprint L fld.value)) := by
    intro fld hf
    rw [hmerged, htag fld hf]
    have hown1 : ownPath (applyOptions options).delimiter
        (withEnv L (applyOptions options) env k) (fld.tag (applyOptions options).tag) :=
      ownPath_merge L hL _ hd _ hce _ k (hown fld hf)
    obtain ⟨hf1, hf2⟩ := dotenvParserEnv_mem L hL (applyOptions options)
      (Marshal L [cfg] options) (fld.tag (applyOptions options).tag) (sprint L fld.value)
      ⟨_, hM2 fld hf, hasPrefix_append _ _, hrt fld hf⟩
      (by
        intro e he _ hek
        obtain ⟨g2, hg2, rfl⟩ := hM1 e he
        simp only at hek ⊢
        rw [hrt g2 hg2] at hek
        rw [hsame g2 hg2 fld hf hek])
    obtain ⟨h1, h2, _⟩ := loaded_own L hL (applyOptions options).delimiter hd _ hcf
      (fld.tag (applyOptions options).tag) (Value.str (sprint L fld.value)) hf1 hf2
      (withEnv L (applyOptions options) env k) hown1
    apply flatten_get L hL
    · exact ⟨_, h1, join_split _ _ hd⟩
    · exact h2
  have hun : unmarshal L (applyOptions options)
      (merged L (applyOptions options) env args files k fs) (withValues cfg g) = (cfg, none) :=
    unmarshal_all L _ _ cfg g
      (fun fld hf => decode_rendered L _ fld (g fld) (hscalar fld hf) (hval fld hf))
  rw [hc_eq, hret_eq, hr_eq, hun, hres]
  exact ⟨rfl, rfl, rfl⟩

set_option maxRecDepth 100000 in
theorem marshal_reload_witness :
    Marshal asciiLib [marshalConfig] []
      = [("SNKD_CLIENT_ID".toList, "abc".toList), ("SNKD_LOG-LEVEL".toList, "info".toList),
         ("SNKD_DEBUG".toList, "true".toList)] ∧
    ((parse asciiLib (applyOptions []) rejectAll [("SNKD_CONFIG".toList, "app.env".toList)]
        ["prog".toList] marshalFiles (defaultsConf asciiLib (applyOptions []) hyphenConfig)
        exampleFlags (withValues marshalConfig (fun _ => Value.null))).config = marshalConfig ∧
     (parse asciiLib (applyOptions []) rejectAll [("SNKD_CONFIG".toList, "app.env".toList)]
        ["prog".toList] marshalFiles (defaultsConf asciiLib (applyOptions []) hyphenConfig)
        exampleFlags (withValues marshalConfig (fun _ => Value.null))).ret
        = validateResult rejectAll marshalConfig ∧
     (parse asciiLib (applyOptions []) rejectAll [("SNKD_CONFIG".toList, "app.env".toList)]
        ["prog".toList] marshalFiles (defaultsConf asciiLib (applyOptions []) hyphenConfig)
        exampleFlags (withValues marshalConfig (fun _ => Value.null))).read
        = ["app.env".toList]) :=
  ⟨by decide,
   (marshal_reload asciiLib asciiLib_ok marshalConfig [] (by decide) (by decide) (by decide)
      (by decide)
      (by
        intro fld hf
        simp only [marshalConfig, stringField, List.mem_cons, List.mem_singleton,
          List.mem_nil_iff, or_false] at hf
        rcases hf with rfl | rfl | rfl
        · exact Or.inl ⟨rfl, _, rfl⟩
        · exact Or.inl ⟨rfl, _, rfl⟩
        · exact Or.inr ⟨rfl, _, rfl⟩)
      (by decide)).2.2 rejectAll [("SNKD_CONFIG".toList, "app.env".toList)] ["prog".toList]
      marshalFiles (defaultsConf asciiLib (applyOptions []) hyphenConfig) exampleFlags
      "app.env".toList (fun _ => Value.null) (by decide) (by decide) (by decide) (by decide)
      (by decide) (by decide) (by decide)⟩

/-- C7 as stated fails: the declared key `client_id` marshals to
`SNKD_CLIENT_ID`, which the load path reads back as `client.id`; and the
distinct keys `a.b` and `a_b` marshal to the same name. -/
theorem marshal_reload_counterexample :
    f asciiLib defaultOption (Marshal.transform asciiLib defaultOption "client_id".toList)
      = "client.id".toList ∧
    f asciiLib defaultOption (Marshal.transform asciiLib defaultOption "client_id".toList)
      ≠ "client_id".toList ∧
    Marshal.transform asciiLib defaultOption "a.b".toList
      = Marshal.transform asciiLib defaultOption "a_b".toList ∧
    "a.b".toList ≠ "a_b".toList := by
  decide

end KoanfTest
